import Mathlib

/-!
Verification of the georisk geometric risk library.

This file shallowly embeds the core numerical engine of the georisk C
library (state space, multilinear interpolation, Jacobian, Hessian,
Jacobi eigenvalues, constraint surface, transport metric, fragility map)
and proves or refutes the specification claims about it.

Modelling conventions:
* C `double` values are modelled as real numbers; IEEE rounding is not
  modelled, so every algebraic identity is exact.
* The C `INFINITY` constant, used only by the constraint signed distance,
  is modelled as the top element of `WithTop ℝ`.
* In-place mutation of heap objects is modelled by explicit state passing:
  a C function that mutates an object and returns an error code becomes a
  Lean function returning the error code paired with the updated record.
* NULL pointers to objects are modelled with `Option` where the source
  checks for them; allocation failures are not modelled (allocation always
  succeeds), and error-message strings attached to the context are dropped.
* Bounded C `for` loops become structural recursion on an explicit fuel
  which equals the loop bound, `List.foldl` over `List.range`, or
  `Finset.sum` / `Finset.prod`, matching the iteration order of the source.
-/

/-- Error enumeration from georisk.h. -/
inductive GrError where
  | success
  | nullPointer
  | invalidArgument
  | outOfMemory
  | dimensionMismatch
  | singularMatrix
  | numericalInstability
  | pricingEngineFailed
  | constraintViolation
  | notInitialized
deriving DecidableEq, Repr

/-- One axis of the state space (gr_dimension_internal_t). -/
structure GrDimension where
  min_value : ℝ
  max_value : ℝ
  num_points : ℕ

instance : Inhabited GrDimension := ⟨⟨0, 0, 0⟩⟩

/-- Grid step size, as computed by gr_dimension_build_grid:
step = (max − min) / (num_points − 1). -/
noncomputable def gr_dimension_step (dm : GrDimension) : ℝ :=
  (dm.max_value - dm.min_value) / ((dm.num_points - 1 : ℕ) : ℝ)

/-- Grid node i of a dimension.  gr_dimension_build_grid stores
min + i·step and then forces the last node to be exactly max. -/
noncomputable def gr_dimension_grid (dm : GrDimension) (i : ℕ) : ℝ :=
  if i = dm.num_points - 1 then dm.max_value
  else dm.min_value + (i : ℝ) * gr_dimension_step dm

/-- State space (gr_state_space_s).  Strides and total_points are always
recomputed from the dimension list by gr_state_space_compute_strides, so
they are modelled as derived functions rather than stored fields. -/
structure GrStateSpace where
  dims : List GrDimension
  prices : List ℝ
  prices_valid : Bool

/-- Total grid size: product of the per-dimension point counts. -/
def gr_total_points (dims : List GrDimension) : ℕ :=
  (dims.map (fun dm => dm.num_points)).prod

/-- Row-major stride of dimension d (stride of the last dimension is 1),
as established by gr_state_space_compute_strides. -/
def gr_stride (dims : List GrDimension) (d : ℕ) : ℕ :=
  gr_total_points (dims.drop (d + 1))

/-- Flat index from a multi-index: Σ indices[d]·stride[d]
(gr_state_space_flat_index). -/
def gr_state_space_flat_index (dims : List GrDimension) (indices : List ℕ) : ℕ :=
  ∑ d ∈ Finset.range dims.length, indices.getD d 0 * gr_stride dims d

/-- Multi-index from a flat index by iterated division with remainder
(gr_state_space_multi_index). -/
def gr_multi_index : List GrDimension → ℕ → List ℕ
  | [], _ => []
  | _ :: rest, flat =>
      flat / gr_total_points rest :: gr_multi_index rest (flat % gr_total_points rest)

/-- Coordinates of the grid node with the given flat index
(gr_state_space_get_coordinates). -/
noncomputable def gr_get_coordinates (dims : List GrDimension) (flat : ℕ) : List ℝ :=
  List.zipWith (fun dm i => gr_dimension_grid dm i) dims (gr_multi_index dims flat)

/-- The bracketing loop of gr_state_space_interpolate_price: starting at
index i with the given fuel (the source iterates i over
[0, num_points−1)), return the first bracket [grid i, grid (i+1)]
containing val together with the interpolation parameter t.  The source
leaves lo/hi/t uninitialized when no bracket matches (unreachable for a
monotone grid); the model returns (0, 0, 0) in that case. -/
noncomputable def gr_search_bracket (dm : GrDimension) (val : ℝ) : ℕ → ℕ → ℕ × ℕ × ℝ
  | _, 0 => (0, 0, 0)
  | i, fuel + 1 =>
      if gr_dimension_grid dm i ≤ val ∧ val ≤ gr_dimension_grid dm (i + 1) then
        (i, i + 1,
          if 1e-15 < gr_dimension_grid dm (i + 1) - gr_dimension_grid dm i then
            (val - gr_dimension_grid dm i) /
              (gr_dimension_grid dm (i + 1) - gr_dimension_grid dm i)
          else 0)
      else gr_search_bracket dm val (i + 1) fuel

/-- Per-dimension clamp-and-bracket step of
gr_state_space_interpolate_price: returns (lo, hi, t). -/
noncomputable def gr_bracket (dm : GrDimension) (val : ℝ) : ℕ × ℕ × ℝ :=
  if val ≤ dm.min_value then (0, 0, 0)
  else if dm.max_value ≤ val then (dm.num_points - 1, dm.num_points - 1, 0)
  else gr_search_bracket dm val 0 (dm.num_points - 1)

/-- Corner weight in the multilinear sum: t when bit d of the corner mask
is set, 1 − t otherwise. -/
noncomputable def gr_interp_weight (br : ℕ → ℕ × ℕ × ℝ) (corner d : ℕ) : ℝ :=
  if corner.testBit d then (br d).2.2 else 1 - (br d).2.2

/-- Corner grid index in dimension d: hi when bit d of the corner mask is
set, lo otherwise. -/
def gr_interp_index (br : ℕ → ℕ × ℕ × ℝ) (corner d : ℕ) : ℕ :=
  if corner.testBit d then (br d).2.1 else (br d).1

/-- Multilinear interpolation of the price grid at arbitrary coordinates
(gr_state_space_interpolate_price).  Returns 0 when prices are missing or
stale; otherwise sums the 2^n corner contributions of the bracketing cell. -/
noncomputable def gr_state_space_interpolate_price (sp : GrStateSpace) (coords : List ℝ) : ℝ :=
  if sp.prices_valid = true ∧ sp.prices ≠ [] then
    (∑ corner ∈ Finset.range (2 ^ sp.dims.length),
      (∏ d ∈ Finset.range sp.dims.length,
        gr_interp_weight
          (fun d => gr_bracket (sp.dims.getD d default) (coords.getD d 0)) corner d) *
      sp.prices.getD
        (∑ d ∈ Finset.range sp.dims.length,
          gr_interp_index
            (fun d => gr_bracket (sp.dims.getD d default) (coords.getD d 0)) corner d *
          gr_stride sp.dims d) 0)
  else 0

/-- Clamp of a coordinate vector to the per-dimension ranges; used to state
the no-extrapolation boundary policy of the interpolation. -/
noncomputable def gr_clamp_coords (dims : List GrDimension) (coords : List ℝ) : List ℝ :=
  (List.range dims.length).map (fun d =>
    max (dims.getD d default).min_value
      (min (dims.getD d default).max_value (coords.getD d 0)))

/-- Jacobian object (gr_jacobian_s). -/
structure GrJacobian where
  num_dims : ℕ
  partials : List ℝ
  point : List ℝ
  value : ℝ
  valid : Bool

/-- Freshly allocated Jacobian (gr_jacobian_new): zeroed buffers, invalid. -/
def gr_jacobian_new (n : ℕ) : GrJacobian :=
  ⟨n, List.replicate n 0, List.replicate n 0, 0, false⟩

/-- One central-difference partial derivative of the grid-backed Jacobian
computation: bump scaled by the dimension range, evaluation by multilinear
interpolation. -/
noncomputable def gr_jacobian_partial_at (sp : GrStateSpace) (bump : ℝ) (point : List ℝ)
    (n d : ℕ) : ℝ :=
  let base := (List.range n).map (fun i => point.getD i 0)
  let dm := sp.dims.getD d default
  let scaled_h := bump * (dm.max_value - dm.min_value)
  (gr_state_space_interpolate_price sp (base.set d (point.getD d 0 + scaled_h)) -
    gr_state_space_interpolate_price sp (base.set d (point.getD d 0 - scaled_h))) /
    (2 * scaled_h)

/-- Grid-backed Jacobian computation (gr_jacobian_compute).  Checks the
dimension match and price validity before mutating anything, then stores
the evaluation point, the interpolated centre value and the central
difference partials and marks the object valid. -/
noncomputable def gr_jacobian_compute (jac : GrJacobian) (sp : GrStateSpace) (point : List ℝ)
    (bump : ℝ) : GrError × GrJacobian :=
  if jac.num_dims ≠ sp.dims.length then (.dimensionMismatch, jac)
  else if sp.prices_valid = false then (.notInitialized, jac)
  else
    (.success,
      { jac with
        point := (List.range jac.num_dims).map (fun i => point.getD i 0)
        value := gr_state_space_interpolate_price sp point
        partials := (List.range jac.num_dims).map
          (gr_jacobian_partial_at sp bump point jac.num_dims)
        valid := true })

/-- L2 norm of the partial vector (gr_jacobian_compute_norm). -/
noncomputable def gr_jacobian_compute_norm (j : GrJacobian) : ℝ :=
  Real.sqrt (((List.range j.num_dims).map
    (fun i => j.partials.getD i 0 * j.partials.getD i 0)).sum)

/-- Public accessor gr_jacobian_get: 0 on NULL, invalid object or
out-of-range dimension. -/
def gr_jacobian_get (jac : Option GrJacobian) (dim : ℤ) : ℝ :=
  match jac with
  | none => 0
  | some j =>
      if j.valid = false then 0
      else if dim < 0 ∨ (j.num_dims : ℤ) ≤ dim then 0
      else j.partials.getD dim.toNat 0

/-- Public accessor gr_jacobian_norm: 0 on NULL or invalid object. -/
noncomputable def gr_jacobian_norm (jac : Option GrJacobian) : ℝ :=
  match jac with
  | none => 0
  | some j => if j.valid = false then 0 else gr_jacobian_compute_norm j

/-- Hessian object (gr_hessian_s); data is the n×n matrix row-major. -/
structure GrHessian where
  num_dims : ℕ
  data : List ℝ
  point : List ℝ
  eigenvalues : List ℝ
  valid : Bool
  eigen_valid : Bool

/-- Freshly allocated Hessian (gr_hessian_new): zeroed buffers, invalid. -/
def gr_hessian_new (n : ℕ) : GrHessian :=
  ⟨n, List.replicate (n * n) 0, List.replicate n 0, List.replicate n 0, false, false⟩

/-- Step selection of the first gr_hessian_compute variant: the context
bump is used directly unless it is non-positive or below 1e−6, in which
case the step of dimension 0 (or 0.01) is used for every dimension. -/
noncomputable def gr_hessian_step_v1 (bump : ℝ) (sp : GrStateSpace) : ℝ :=
  if bump ≤ 0 ∨ bump < 1e-6 then
    if 0 < sp.dims.length ∧ 1 < (sp.dims.getD 0 default).num_points then
      ((sp.dims.getD 0 default).max_value - (sp.dims.getD 0 default).min_value) /
        (((sp.dims.getD 0 default).num_points - 1 : ℕ) : ℝ)
    else 0.01
  else bump

/-- Per-dimension step of the second gr_hessian_compute variant:
h_d = bump · (max_d − min_d). -/
noncomputable def gr_hessian_step_v2 (bump : ℝ) (dm : GrDimension) : ℝ :=
  bump * (dm.max_value - dm.min_value)

/-- Entry (i, j) of the first gr_hessian_compute variant: three-point
stencil on the diagonal, four-corner stencil off the diagonal, every
evaluation by multilinear interpolation with the single step h. -/
noncomputable def gr_hessian_entry_v1 (sp : GrStateSpace) (point : List ℝ) (n : ℕ) (h : ℝ)
    (i j : ℕ) : ℝ :=
  let x := (List.range n).map (fun k => point.getD k 0)
  let f_center := gr_state_space_interpolate_price sp point
  if i = j then
    (gr_state_space_interpolate_price sp (x.set i (point.getD i 0 + h)) -
      2 * f_center +
      gr_state_space_interpolate_price sp (x.set i (point.getD i 0 - h))) / (h * h)
  else
    (gr_state_space_interpolate_price sp
        ((x.set i (point.getD i 0 + h)).set j (point.getD j 0 + h)) -
      gr_state_space_interpolate_price sp
        ((x.set i (point.getD i 0 + h)).set j (point.getD j 0 - h)) -
      gr_state_space_interpolate_price sp
        ((x.set i (point.getD i 0 - h)).set j (point.getD j 0 + h)) +
      gr_state_space_interpolate_price sp
        ((x.set i (point.getD i 0 - h)).set j (point.getD j 0 - h))) / (4 * h * h)

/-- First gr_hessian_compute variant (hessian.c, first copy): checks only
the dimension match — price validity is NOT checked — then fills the
symmetric matrix and marks the object valid.  The upper triangle is
computed and mirrored, so entry (i, j) with i > j is the (j, i) stencil. -/
noncomputable def gr_hessian_compute_v1 (hess : GrHessian) (sp : GrStateSpace) (point : List ℝ)
    (bump : ℝ) : GrError × GrHessian :=
  if hess.num_dims ≠ sp.dims.length then (.dimensionMismatch, hess)
  else
    (.success,
      { hess with
        point := (List.range hess.num_dims).map (fun i => point.getD i 0)
        eigen_valid := false
        data := (List.range (hess.num_dims * hess.num_dims)).map (fun k =>
          gr_hessian_entry_v1 sp point hess.num_dims (gr_hessian_step_v1 bump sp)
            (min (k / hess.num_dims) (k % hess.num_dims))
            (max (k / hess.num_dims) (k % hess.num_dims)))
        valid := true })

/-- Entry (i, j) of the second gr_hessian_compute variant, with
per-dimension steps h_i = bump·range_i. -/
noncomputable def gr_hessian_entry_v2 (sp : GrStateSpace) (point : List ℝ) (n : ℕ) (bump : ℝ)
    (i j : ℕ) : ℝ :=
  let x := (List.range n).map (fun k => point.getD k 0)
  let f_center := gr_state_space_interpolate_price sp point
  let hi := gr_hessian_step_v2 bump (sp.dims.getD i default)
  let hj := gr_hessian_step_v2 bump (sp.dims.getD j default)
  if i = j then
    (gr_state_space_interpolate_price sp (x.set i (point.getD i 0 + hi)) -
      2 * f_center +
      gr_state_space_interpolate_price sp (x.set i (point.getD i 0 - hi))) / (hi * hi)
  else
    (gr_state_space_interpolate_price sp
        ((x.set i (point.getD i 0 + hi)).set j (point.getD j 0 + hj)) -
      gr_state_space_interpolate_price sp
        ((x.set i (point.getD i 0 + hi)).set j (point.getD j 0 - hj)) -
      gr_state_space_interpolate_price sp
        ((x.set i (point.getD i 0 - hi)).set j (point.getD j 0 + hj)) +
      gr_state_space_interpolate_price sp
        ((x.set i (point.getD i 0 - hi)).set j (point.getD j 0 - hj))) /
      (4 * hi * hj)

/-- Second gr_hessian_compute variant (hessian.c, second copy): checks the
dimension match AND price validity on entry (stale prices are a no-op
returning notInitialized), then fills the symmetric matrix with
per-dimension steps. -/
noncomputable def gr_hessian_compute_v2 (hess : GrHessian) (sp : GrStateSpace) (point : List ℝ)
    (bump : ℝ) : GrError × GrHessian :=
  if hess.num_dims ≠ sp.dims.length then (.dimensionMismatch, hess)
  else if sp.prices_valid = false then (.notInitialized, hess)
  else
    (.success,
      { hess with
        point := (List.range hess.num_dims).map (fun i => point.getD i 0)
        data := (List.range (hess.num_dims * hess.num_dims)).map (fun k =>
          gr_hessian_entry_v2 sp point hess.num_dims bump
            (min (k / hess.num_dims) (k % hess.num_dims))
            (max (k / hess.num_dims) (k % hess.num_dims)))
        valid := true
        eigen_valid := false })

/-- Public accessor gr_hessian_get: 0 on NULL, invalid object or
out-of-range indices. -/
def gr_hessian_get (hess : Option GrHessian) (row col : ℤ) : ℝ :=
  match hess with
  | none => 0
  | some h =>
      if h.valid = false then 0
      else if row < 0 ∨ (h.num_dims : ℤ) ≤ row then 0
      else if col < 0 ∨ (h.num_dims : ℤ) ≤ col then 0
      else h.data.getD (row.toNat * h.num_dims + col.toNat) 0

/-- Trace of the stored matrix (gr_hessian_compute_trace). -/
noncomputable def gr_hessian_trace_sum (h : GrHessian) : ℝ :=
  ((List.range h.num_dims).map (fun i => h.data.getD (i * h.num_dims + i) 0)).sum

/-- Public accessor gr_hessian_trace: 0 on NULL or invalid object. -/
noncomputable def gr_hessian_trace (hess : Option GrHessian) : ℝ :=
  match hess with
  | none => 0
  | some h => if h.valid = false then 0 else gr_hessian_trace_sum h

/-- Frobenius norm of the stored matrix (gr_hessian_compute_frobenius). -/
noncomputable def gr_hessian_frobenius_sum (h : GrHessian) : ℝ :=
  Real.sqrt (((List.range (h.num_dims * h.num_dims)).map
    (fun k => h.data.getD k 0 * h.data.getD k 0)).sum)

/-- Public accessor gr_hessian_frobenius_norm: 0 on NULL or invalid object. -/
noncomputable def gr_hessian_frobenius_norm (hess : Option GrHessian) : ℝ :=
  match hess with
  | none => 0
  | some h => if h.valid = false then 0 else gr_hessian_frobenius_sum h

/-- Off-diagonal norm used as the Jacobi convergence test
(gr_jacobi_off_diag_norm): sqrt(2·Σ_{i<j} M_ij²). -/
noncomputable def gr_jacobi_off_diag_norm (M : ℕ → ℕ → ℝ) (n : ℕ) : ℝ :=
  Real.sqrt (2 * ∑ i ∈ Finset.range n,
    ∑ j ∈ (Finset.range n).filter (fun j => i < j), M i j * M i j)

/-- Largest off-diagonal entry search (gr_jacobi_find_max_off_diag):
scans pairs (i, j) with i < j in row-major order, keeping the first
maximiser; starts from (0, 1) with running maximum 0. -/
noncomputable def gr_jacobi_find_max_off_diag (M : ℕ → ℕ → ℝ) (n : ℕ) : ℕ × ℕ :=
  (((List.range n).map (fun i =>
      ((List.range n).filter (fun j => i < j)).map (fun j => (i, j)))).flatten.foldl
    (fun acc pr => if acc.2 < |M pr.1 pr.2| then (pr, |M pr.1 pr.2|) else acc)
    ((0, 1), 0)).1

/-- Two-argument arctangent, modelling C atan2 on the real plane. -/
noncomputable def gr_atan2 (y x : ℝ) : ℝ :=
  if 0 < x then Real.arctan (y / x)
  else if x < 0 then
    if 0 ≤ y then Real.arctan (y / x) + Real.pi else Real.arctan (y / x) - Real.pi
  else if 0 < y then Real.pi / 2
  else if y < 0 then -(Real.pi / 2)
  else 0

/-- One symmetric Jacobi rotation at the pivot (p, q): rows and columns p
and q are rotated, the pivot entries are zeroed, and the two diagonal
entries are updated from the saved old values, exactly as in the body of
gr_eigenvalues_jacobi. -/
noncomputable def gr_jacobi_rotate (M : ℕ → ℕ → ℝ) (p q : ℕ) : ℕ → ℕ → ℝ :=
  let app := M p p
  let aqq := M q q
  let apq := M p q
  let theta :=
    if |app - aqq| < 1e-15 then Real.pi / 4 else (1 / 2) * gr_atan2 (2 * apq) (aqq - app)
  let c := Real.cos theta
  let s := Real.sin theta
  fun i j =>
    if i = p ∧ j = p then c * c * app - 2 * s * c * apq + s * s * aqq
    else if i = q ∧ j = q then s * s * app + 2 * s * c * apq + c * c * aqq
    else if (i = p ∧ j = q) ∨ (i = q ∧ j = p) then 0
    else if j = p then c * M i p - s * M i q
    else if i = p then c * M j p - s * M j q
    else if j = q then s * M i p + c * M i q
    else if i = q then s * M j p + c * M j q
    else M i j

/-- One pass of the in-place selection-style exchange sort that
gr_eigenvalues_jacobi runs on the extracted diagonal: the pivot x is
swapped with any later element of larger absolute value; returns the final
pivot together with the displaced remainder in order. -/
noncomputable def gr_eig_sort_pass (x : ℝ) : List ℝ → ℝ × List ℝ
  | [] => (x, [])
  | y :: ys =>
      if |x| < |y| then
        ((gr_eig_sort_pass y ys).1, x :: (gr_eig_sort_pass y ys).2)
      else
        ((gr_eig_sort_pass x ys).1, y :: (gr_eig_sort_pass x ys).2)

/-- The full exchange sort (descending by absolute value), with fuel equal
to the list length, matching the bounded outer loop of the source. -/
noncomputable def gr_eig_sort_go : ℕ → List ℝ → List ℝ
  | 0, _ => []
  | _, [] => []
  | fuel + 1, x :: xs =>
      (gr_eig_sort_pass x xs).1 :: gr_eig_sort_go fuel (gr_eig_sort_pass x xs).2

/-- Sort a list descending by absolute value, as the double loop at the
end of gr_eigenvalues_jacobi does to the eigenvalue array. -/
noncomputable def gr_eig_sort (l : List ℝ) : List ℝ :=
  gr_eig_sort_go l.length l

/-- The bounded Jacobi sweep loop of gr_eigenvalues_jacobi: on
convergence (off-diagonal norm below 1e−12) return the diagonal sorted
descending by absolute value; otherwise rotate at the largest off-diagonal
pivot and continue; fuel exhaustion is numerical instability. -/
noncomputable def gr_eigenvalues_jacobi_loop (n : ℕ) (M : ℕ → ℕ → ℝ) :
    ℕ → Except GrError (List ℝ)
  | 0 => .error .numericalInstability
  | fuel + 1 =>
      if gr_jacobi_off_diag_norm M n < 1e-12 then
        .ok (gr_eig_sort ((List.range n).map (fun i => M i i)))
      else
        gr_eigenvalues_jacobi_loop n
          (gr_jacobi_rotate M (gr_jacobi_find_max_off_diag M n).1
            (gr_jacobi_find_max_off_diag M n).2) fuel

/-- Jacobi eigenvalue computation (gr_eigenvalues_jacobi), with the
source's iteration bound of 100 sweeps. -/
noncomputable def gr_eigenvalues_jacobi (M : ℕ → ℕ → ℝ) (n : ℕ) :
    Except GrError (List ℝ) :=
  gr_eigenvalues_jacobi_loop n M 100

/-- The max/min scan of gr_hessian_condition_number over the eigenvalue
array: running maximum of |λ| starting at 0, and running minimum of those
|λ| exceeding 1e−15 starting at 1e300. -/
noncomputable def gr_condition_scan (evs : List ℝ) : ℝ × ℝ :=
  evs.foldl
    (fun acc v =>
      (if acc.1 < |v| then |v| else acc.1,
       if 1e-15 < |v| ∧ |v| < acc.2 then |v| else acc.2))
    (0, 1e300)

/-- Final ratio of gr_hessian_condition_number: 1e15 when the retained
minimum is below 1e−15 (note the minimum is initialised to 1e300, so this
branch is unreachable), otherwise max/min. -/
noncomputable def gr_condition_from_eigenvalues (evs : List ℝ) : ℝ :=
  if (gr_condition_scan evs).2 < 1e-15 then 1e15
  else (gr_condition_scan evs).1 / (gr_condition_scan evs).2

/-- compute_eigenvalues_internal: serve the cached eigenvalues when the
cache is valid, fail on an invalid Hessian, otherwise run Jacobi on a copy
of the matrix and cache the result. -/
noncomputable def gr_compute_eigenvalues_internal (hess : GrHessian) :
    Except GrError (List ℝ × GrHessian) :=
  if hess.eigen_valid = true then .ok (hess.eigenvalues, hess)
  else if hess.valid = false then .error .notInitialized
  else
    match gr_eigenvalues_jacobi
        (fun i j => hess.data.getD (i * hess.num_dims + j) 0) hess.num_dims with
    | .error e => .error e
    | .ok evs => .ok (evs, { hess with eigenvalues := evs, eigen_valid := true })

/-- Public gr_hessian_eigenvalues: invalid Hessian yields notInitialized,
a zero requested count yields invalidArgument, otherwise the first
min(count, n) cached-or-computed eigenvalues are returned (the C int
count is modelled as ℕ, so the count ≤ 0 check becomes count = 0). -/
noncomputable def gr_hessian_eigenvalues (hess : GrHessian) (num : ℕ) :
    Except GrError (List ℝ × GrHessian) :=
  if hess.valid = false then .error .notInitialized
  else if num = 0 then .error .invalidArgument
  else
    match gr_compute_eigenvalues_internal hess with
    | .error e => .error e
    | .ok (evs, h) => .ok (evs.take (min num hess.num_dims), h)

/-- Public gr_hessian_condition_number: 0 on NULL or invalid object, 0
when the eigenvalue computation fails, otherwise the scan ratio. -/
noncomputable def gr_hessian_condition_number (hess : Option GrHessian) : ℝ :=
  match hess with
  | none => 0
  | some h =>
      if h.valid = false then 0
      else
        match gr_compute_eigenvalues_internal h with
        | .error _ => 0
        | .ok (evs, _) => gr_condition_from_eigenvalues evs

/-- Constraint direction (gr_constraint_direction_t). -/
inductive GrConstraintDirection where
  | upper
  | lower
  | equality
deriving DecidableEq, Repr

/-- Constraint hardness (gr_constraint_hardness_t). -/
inductive GrConstraintHardness where
  | hard
  | soft
  | dynamic
deriving DecidableEq, Repr

/-- A single constraint (gr_constraint_t); a custom evaluation callback is
modelled as an optional pure function of the coordinates. -/
structure GrConstraint where
  active : Bool
  dimension : ℤ
  direction : GrConstraintDirection
  threshold : ℝ
  tolerance : ℝ
  hardness : GrConstraintHardness
  penalty_rate : ℝ
  eval_fn : Option (List ℝ → ℝ)

/-- The constrained quantity (gr_constraint_get_value): the callback value
when present, else the selected coordinate when the dimension index is in
range, else 0. -/
noncomputable def gr_constraint_get_value (c : GrConstraint) (coords : List ℝ)
    (num_dims : ℕ) : ℝ :=
  match c.eval_fn with
  | some f => f coords
  | none =>
      if 0 ≤ c.dimension ∧ c.dimension < (num_dims : ℤ) then
        coords.getD c.dimension.toNat 0
      else 0

/-- Violation test (gr_constraint_is_violated): inactive constraints are
never violated; otherwise compare the value against the threshold per the
direction. -/
noncomputable def gr_constraint_is_violated (c : GrConstraint) (coords : List ℝ)
    (num_dims : ℕ) : Bool :=
  if c.active = false then false
  else
    match c.direction with
    | .upper => decide (c.threshold < gr_constraint_get_value c coords num_dims)
    | .lower => decide (gr_constraint_get_value c coords num_dims < c.threshold)
    | .equality =>
        decide (c.tolerance < |gr_constraint_get_value c coords num_dims - c.threshold|)

/-- Signed distance to the constraint boundary
(gr_constraint_signed_distance): INFINITY (modelled as ⊤) for inactive
constraints, else T − v, v − T or tol − |v − T| per the direction. -/
noncomputable def gr_constraint_signed_distance (c : GrConstraint) (coords : List ℝ)
    (num_dims : ℕ) : WithTop ℝ :=
  if c.active = false then ⊤
  else
    match c.direction with
    | .upper => ((c.threshold - gr_constraint_get_value c coords num_dims : ℝ) : WithTop ℝ)
    | .lower => ((gr_constraint_get_value c coords num_dims - c.threshold : ℝ) : WithTop ℝ)
    | .equality =>
        ((c.tolerance - |gr_constraint_get_value c coords num_dims - c.threshold| : ℝ) :
          WithTop ℝ)

/-- Minimum signed distance over a constraint surface
(gr_constraints_min_distance): running minimum starting at INFINITY,
updated on strict decrease. -/
noncomputable def gr_constraints_min_distance (cs : List GrConstraint)
    (coords : List ℝ) (num_dims : ℕ) : WithTop ℝ :=
  cs.foldl
    (fun m c =>
      if gr_constraint_signed_distance c coords num_dims < m then
        gr_constraint_signed_distance c coords num_dims
      else m)
    ⊤

/-- A sampled metric tensor (gr_metric_sample_t), tensor row-major. -/
structure GrMetricSample where
  coordinates : List ℝ
  tensor : List ℝ

/-- Transport metric (gr_transport_metric_s). -/
structure GrTransportMetric where
  num_dims : ℕ
  samples : List GrMetricSample
  default_tensor : Option (List ℝ)
  use_identity : Bool
  interpolation_radius : ℝ

/-- Identity tensor written by gr_metric_set_identity, row-major. -/
noncomputable def gr_metric_identity (n : ℕ) : List ℝ :=
  (List.range (n * n)).map (fun k => if k / n = k % n then 1 else 0)

/-- The default-tensor branch of gr_metric_interpolate: identity when the
use_identity flag is set, else the stored default tensor, else identity. -/
noncomputable def gr_metric_default (m : GrTransportMetric) : List ℝ :=
  if m.use_identity = true then gr_metric_identity m.num_dims
  else
    match m.default_tensor with
    | some t => t
    | none => gr_metric_identity m.num_dims

/-- Euclidean distance between coordinate vectors (gr_euclidean_distance). -/
noncomputable def gr_euclidean_distance (a b : List ℝ) (n : ℕ) : ℝ :=
  Real.sqrt (((List.range n).map
    (fun i => (a.getD i 0 - b.getD i 0) * (a.getD i 0 - b.getD i 0))).sum)

/-- Inverse-distance-weighting accumulation of gr_metric_interpolate over
the sample list: total weight and accumulated tensor, skipping samples
outside a positive interpolation radius. -/
noncomputable def gr_metric_idw (m : GrTransportMetric) (coords : List ℝ) :
    ℝ × List ℝ :=
  m.samples.foldl
    (fun acc sample =>
      if 0 < m.interpolation_radius ∧
          m.interpolation_radius < gr_euclidean_distance coords sample.coordinates m.num_dims then
        acc
      else
        ((acc.1 + 1 / (gr_euclidean_distance coords sample.coordinates m.num_dims + 1e-10) ^ 2),
          (List.range (m.num_dims * m.num_dims)).map (fun k =>
            acc.2.getD k 0 +
              (1 / (gr_euclidean_distance coords sample.coordinates m.num_dims + 1e-10) ^ 2) *
                sample.tensor.getD k 0)))
    (0, (List.range (m.num_dims * m.num_dims)).map (fun _ => (0 : ℝ)))

/-- Metric tensor interpolation at a point (gr_metric_interpolate):
the default tensor when there are no samples, else inverse-distance
weighting normalised by the total weight, falling back to the default when
the weight mass is below 1e−10. -/
noncomputable def gr_metric_interpolate (m : GrTransportMetric) (coords : List ℝ) :
    List ℝ :=
  if m.samples.length = 0 then gr_metric_default m
  else
    if 1e-10 < (gr_metric_idw m coords).1 then
      (List.range (m.num_dims * m.num_dims)).map (fun k =>
        (gr_metric_idw m coords).2.getD k 0 / (gr_metric_idw m coords).1)
    else gr_metric_default m

/-- Quadratic form v^T G v over the row-major tensor
(gr_metric_quadratic_form). -/
noncomputable def gr_metric_quadratic_form (tensor v : List ℝ) (n : ℕ) : ℝ :=
  ∑ i ∈ Finset.range n, ∑ j ∈ Finset.range n,
    v.getD i 0 * tensor.getD (i * n + j) 0 * v.getD j 0

/-- Midpoint-rule geodesic distance (gr_geodesic_distance_approx): the
straight segment is cut into 100 steps; each step contributes
sqrt(dir^T G(midpoint) dir)·dt when the quadratic form is positive and 0
otherwise. -/
noncomputable def gr_geodesic_distance_approx (m : GrTransportMetric)
    (a b : List ℝ) : ℝ :=
  ∑ step ∈ Finset.range 100,
    (if 0 < gr_metric_quadratic_form
          (gr_metric_interpolate m
            ((List.range m.num_dims).map (fun i =>
              a.getD i 0 + (((step : ℝ) + 1 / 2) * (1 / 100)) * (b.getD i 0 - a.getD i 0))))
          ((List.range m.num_dims).map (fun i => b.getD i 0 - a.getD i 0)) m.num_dims
     then
       Real.sqrt (gr_metric_quadratic_form
          (gr_metric_interpolate m
            ((List.range m.num_dims).map (fun i =>
              a.getD i 0 + (((step : ℝ) + 1 / 2) * (1 / 100)) * (b.getD i 0 - a.getD i 0))))
          ((List.range m.num_dims).map (fun i => b.getD i 0 - a.getD i 0)) m.num_dims) *
        (1 / 100)
     else 0)

/-- Public gr_transport_distance: 0 on NULL metric, Euclidean distance for
an uninitialised (0-dimensional) metric, 0 on a dimension mismatch, else
the geodesic approximation. -/
noncomputable def gr_transport_distance (m : Option GrTransportMetric)
    (a b : List ℝ) (num_dims : ℕ) : ℝ :=
  match m with
  | none => 0
  | some m =>
      if m.num_dims = 0 then gr_euclidean_distance a b num_dims
      else if num_dims ≠ m.num_dims then 0
      else gr_geodesic_distance_approx m a b

/-- Fragility configuration (gr_fragility_config_t). -/
structure GrFragilityConfig where
  weight_gradient : ℝ
  weight_curvature : ℝ
  weight_conditioning : ℝ
  weight_constraint : ℝ
  gradient_scale : ℝ
  curvature_scale : ℝ
  condition_threshold : ℝ
  constraint_threshold : ℝ
  fragility_threshold : ℝ
  store_all_points : Bool

/-- Default fragility configuration (GR_FRAGILITY_CONFIG_DEFAULT). -/
noncomputable def gr_fragility_config_default : GrFragilityConfig :=
  ⟨0.25, 0.30, 0.25, 0.20, 1.0, 10.0, 100.0, 0.05, 0.5, false⟩

/-- Gradient fragility component (gr_fragility_from_gradient): the
exponential sigmoid 2/(1+e^(−x)) − 1 of x = norm/scale; 0 for a
non-positive scale. -/
noncomputable def gr_fragility_from_gradient (gradient_norm scale : ℝ) : ℝ :=
  if scale ≤ 0 then 0 else 2 / (1 + Real.exp (-(gradient_norm / scale))) - 1

/-- Curvature fragility component (gr_fragility_from_curvature), same
sigmoid of the Frobenius norm. -/
noncomputable def gr_fragility_from_curvature (frobenius_norm scale : ℝ) : ℝ :=
  if scale ≤ 0 then 0 else 2 / (1 + Real.exp (-(frobenius_norm / scale))) - 1

/-- Conditioning fragility component (gr_fragility_from_conditioning):
log-scale ramp of the condition number, clamped to [0, 1]. -/
noncomputable def gr_fragility_from_conditioning (condition_number threshold : ℝ) : ℝ :=
  if threshold ≤ 1 then 0
  else if condition_number ≤ 1 then 0
  else if Real.logb 10 condition_number ≤ 0 then 0
  else if 2 * Real.logb 10 threshold ≤ Real.logb 10 condition_number then 1
  else Real.logb 10 condition_number / (2 * Real.logb 10 threshold)

/-- Constraint fragility component (gr_fragility_from_constraint):
linear ramp of the signed distance on (0, threshold). -/
noncomputable def gr_fragility_from_constraint (distance threshold : ℝ) : ℝ :=
  if threshold ≤ 0 then 0
  else if distance ≤ 0 then 1
  else if threshold ≤ distance then 0
  else 1 - distance / threshold

/-- Linear combination of the four components (gr_fragility_combine).
Note: no clamping is applied. -/
noncomputable def gr_fragility_combine (g c k b : ℝ) (cfg : GrFragilityConfig) : ℝ :=
  cfg.weight_gradient * g + cfg.weight_curvature * c +
    cfg.weight_conditioning * k + cfg.weight_constraint * b

/-- A recorded fragile point (gr_fragility_point_t). -/
structure GrFragilePoint where
  coordinates : List ℝ
  fragility_score : ℝ
  curvature : ℝ
  gradient_norm : ℝ
  near_constraint : Bool

/-- Fragility map (gr_fragility_map_s); the borrowed state space is passed
to the compute explicitly. -/
structure GrFragilityMap where
  config : GrFragilityConfig
  points : List GrFragilePoint
  grid_scores : List ℝ
  grid_computed : Bool
  max_fragility : ℝ
  mean_fragility : ℝ
  fragile_fraction : ℝ

/-- The mutable state threaded through the sweep of
gr_fragility_map_compute: the reused Jacobian and Hessian objects, the
score grid, the running sum, fragile count, running maximum and the
fragile-point list. -/
structure GrSweepState where
  jac : GrJacobian
  hess : GrHessian
  grid_scores : List ℝ
  sum_fragility : ℝ
  num_fragile : ℕ
  max_fragility : ℝ
  points : List GrFragilePoint

/-- One iteration of the sweep loop of gr_fragility_map_compute: compute
the Jacobian and Hessian at the node, skipping the node (continue) if
either fails; otherwise derive the component scores, combine them with a
zero constraint component, store the score, and update the statistics and
the fragile-point list. -/
noncomputable def gr_sweep_step (sp : GrStateSpace) (cfg : GrFragilityConfig)
    (bump : ℝ) (s : GrSweepState) (flat : ℕ) : GrSweepState :=
  let coords := gr_get_coordinates sp.dims flat
  let r1 := gr_jacobian_compute s.jac sp coords bump
  if r1.1 ≠ .success then { s with jac := r1.2 }
  else
    let r2 := gr_hessian_compute_v1 s.hess sp coords bump
    if r2.1 ≠ .success then { s with jac := r1.2, hess := r2.2 }
    else
      let gradient_norm := gr_jacobian_norm (some r1.2)
      let frobenius := gr_hessian_frobenius_norm (some r2.2)
      let condition := gr_hessian_condition_number (some r2.2)
      let fragility := gr_fragility_combine
        (gr_fragility_from_gradient gradient_norm cfg.gradient_scale)
        (gr_fragility_from_curvature frobenius cfg.curvature_scale)
        (gr_fragility_from_conditioning condition cfg.condition_threshold)
        0 cfg
      { jac := r1.2
        hess := r2.2
        grid_scores := s.grid_scores.set flat fragility
        sum_fragility := s.sum_fragility + fragility
        num_fragile :=
          if cfg.fragility_threshold ≤ fragility then s.num_fragile + 1 else s.num_fragile
        max_fragility := if s.max_fragility < fragility then fragility else s.max_fragility
        points :=
          if cfg.fragility_threshold ≤ fragility then
            s.points ++ [⟨coords, fragility, frobenius, gradient_norm, false⟩]
          else s.points }

/-- Full-grid fragility computation (gr_fragility_map_compute): fails with
notInitialized on stale prices; otherwise allocates the score grid if
needed, resets the statistics and the fragile-point list, sweeps every
flat index in order with reusable Jacobian/Hessian objects, and finally
publishes mean = Σ/total and fragile_fraction = count/total and marks the
map computed. -/
noncomputable def gr_fragility_map_compute (m : GrFragilityMap) (sp : GrStateSpace)
    (bump : ℝ) : GrError × GrFragilityMap :=
  if sp.prices_valid = false then (.notInitialized, m)
  else
    let total := gr_total_points sp.dims
    let fin := (List.range total).foldl
      (gr_sweep_step sp m.config bump)
      ⟨gr_jacobian_new sp.dims.length, gr_hessian_new sp.dims.length,
        if m.grid_scores.length = 0 then List.replicate total 0 else m.grid_scores,
        0, 0, 0, []⟩
    (.success,
      { m with
        grid_scores := fin.grid_scores
        points := fin.points
        max_fragility := fin.max_fragility
        mean_fragility := if 0 < total then fin.sum_fragility / (total : ℝ) else 0
        fragile_fraction := if 0 < total then (fin.num_fragile : ℝ) / (total : ℝ) else 0
        grid_computed := true })

/-- The score that the sweep of gr_fragility_map_compute stores at a given
node, written with fresh Jacobian/Hessian objects of the right dimension:
the reused objects give the same derived values because a successful
compute overwrites every field they read. -/
noncomputable def gr_node_fragility (sp : GrStateSpace) (cfg : GrFragilityConfig)
    (bump : ℝ) (flat : ℕ) : ℝ :=
  let coords := gr_get_coordinates sp.dims flat
  let jac := (gr_jacobian_compute (gr_jacobian_new sp.dims.length) sp coords bump).2
  let hess := (gr_hessian_compute_v1 (gr_hessian_new sp.dims.length) sp coords bump).2
  gr_fragility_combine
    (gr_fragility_from_gradient (gr_jacobian_norm (some jac)) cfg.gradient_scale)
    (gr_fragility_from_curvature (gr_hessian_frobenius_norm (some hess)) cfg.curvature_scale)
    (gr_fragility_from_conditioning (gr_hessian_condition_number (some hess))
      cfg.condition_threshold)
    0 cfg

/-- The Jacobian record produced by a successful gr_jacobian_compute on a
state space: every field is overwritten, so the result does not depend on
the previous state of the reused object. -/
noncomputable def gr_jacobian_result (sp : GrStateSpace) (bump : ℝ) (pt : List ℝ) :
    GrJacobian :=
  ⟨sp.dims.length,
    (List.range sp.dims.length).map (gr_jacobian_partial_at sp bump pt sp.dims.length),
    (List.range sp.dims.length).map (fun i => pt.getD i 0),
    gr_state_space_interpolate_price sp pt, true⟩

/-- The matrix written by a successful first-variant gr_hessian_compute. -/
noncomputable def gr_hessian_data_v1 (sp : GrStateSpace) (bump : ℝ) (pt : List ℝ) :
    List ℝ :=
  (List.range (sp.dims.length * sp.dims.length)).map (fun k =>
    gr_hessian_entry_v1 sp pt sp.dims.length (gr_hessian_step_v1 bump sp)
      (min (k / sp.dims.length) (k % sp.dims.length))
      (max (k / sp.dims.length) (k % sp.dims.length)))

/-- Concrete dimension [0, 10] with 21 nodes (grid step 1/2). -/
noncomputable def dimC1 : GrDimension := ⟨0, 10, 21⟩

/-- Concrete state space over dimC1 with valid (all-zero) prices. -/
noncomputable def spaceC1 : GrStateSpace := ⟨[dimC1], List.replicate 21 0, true⟩

/-- Concrete state space whose prices are present but stale. -/
noncomputable def spaceStale : GrStateSpace := ⟨[⟨0, 10, 2⟩], [0, 100], false⟩

/-- 1×1 Hessian holding the zero matrix, valid, eigenvalues not cached:
every eigenvalue is negligible. -/
noncomputable def hessZero : GrHessian := ⟨1, [0], [0], [0], true, false⟩

/-- 1×1 Hessian holding the matrix [5], valid, eigenvalues not cached. -/
noncomputable def hessFive : GrHessian := ⟨1, [5], [0], [0], true, false⟩

/-- hessFive after the eigenvalue computation caches [5]. -/
noncomputable def hessFiveAfter : GrHessian := ⟨1, [5], [0], [5], true, true⟩

/-- 1-D state space on [0, 10] with 2 nodes and prices 0, 100 (the
sampled function 10·x), valid. -/
noncomputable def spaceC3 : GrStateSpace := ⟨[⟨0, 10, 2⟩], [0, 100], true⟩

/-- Fragility configuration with the non-negative weights (3, 0, 0, 0)
and default scales and thresholds. -/
noncomputable def cfgC3 : GrFragilityConfig :=
  ⟨3, 0, 0, 0, 1.0, 10.0, 100.0, 0.05, 0.5, false⟩

/-- Fresh fragility map carrying cfgC3. -/
noncomputable def mapC3 : GrFragilityMap := ⟨cfgC3, [], [], false, 0, 0, 0⟩

/-- 1-D state space on [0, 10] with 2 nodes and constant zero prices. -/
noncomputable def spaceFlat : GrStateSpace := ⟨[⟨0, 10, 2⟩], [0, 0], true⟩

/-- Fresh fragility map with the default configuration. -/
noncomputable def mapDefault : GrFragilityMap :=
  ⟨gr_fragility_config_default, [], [], false, 0, 0, 0⟩

/-- Active soft upper constraint on dimension 0 with threshold 100. -/
noncomputable def constraintUp : GrConstraint :=
  ⟨true, 0, .upper, 100, 1e-9, .soft, 10, none⟩

/-- The same constraint deactivated. -/
noncomputable def constraintOff : GrConstraint :=
  ⟨false, 0, .upper, 100, 1e-9, .soft, 10, none⟩

/-- 1-dimensional transport metric with no samples and the identity
default tensor. -/
noncomputable def metricId1 : GrTransportMetric := ⟨1, [], none, true, 0⟩

/-- C1: the specification mandates that the grid-backed Hessian step in
dimension d be the grid step (max_d − min_d)/(N_d − 1) when finite and
non-trivial, falling back to the context bump only otherwise.  Neither
compute variant does this: with the default bump 1e−4 and a dimension of
step 1/2, the first variant uses the raw bump 1e−4 and the second uses
bump·range = 1e−3, both different from the grid step. -/
theorem hessian_bump_is_not_grid_step :
    gr_dimension_step dimC1 = 1 / 2 ∧
    gr_hessian_step_v1 1e-4 spaceC1 = 1e-4 ∧
    gr_hessian_step_v2 1e-4 dimC1 = 1e-3 ∧
    gr_hessian_step_v1 1e-4 spaceC1 ≠ gr_dimension_step dimC1 ∧
    gr_hessian_step_v2 1e-4 dimC1 ≠ gr_dimension_step dimC1 := by
  have hstep : gr_dimension_step dimC1 = 1 / 2 := by
    norm_num [gr_dimension_step, dimC1]
  have h1 : gr_hessian_step_v1 1e-4 spaceC1 = 1e-4 := by
    rw [gr_hessian_step_v1, if_neg]
    norm_num
  have h2 : gr_hessian_step_v2 1e-4 dimC1 = 1e-3 := by
    norm_num [gr_hessian_step_v2, dimC1]
  refine ⟨hstep, h1, h2, ?_, ?_⟩
  · rw [h1, hstep]; norm_num
  · rw [h2, hstep]; norm_num

/-- C5: for an active constraint the signed distance is T − v (upper),
v − T (lower) or tol − |v − T| (equality), and the violation test is
exactly the negativity of the signed distance in the spec's table;
inactive constraints have signed distance +∞, are never violated, and do
not change a minimum-distance query. -/
theorem constraint_signed_distance_spec (c : GrConstraint) (coords : List ℝ) (n : ℕ) :
    (c.active = true →
      (c.direction = .upper →
        gr_constraint_signed_distance c coords n =
          ((c.threshold - gr_constraint_get_value c coords n : ℝ) : WithTop ℝ) ∧
        (gr_constraint_is_violated c coords n = true ↔
          c.threshold < gr_constraint_get_value c coords n)) ∧
      (c.direction = .lower →
        gr_constraint_signed_distance c coords n =
          ((gr_constraint_get_value c coords n - c.threshold : ℝ) : WithTop ℝ) ∧
        (gr_constraint_is_violated c coords n = true ↔
          gr_constraint_get_value c coords n < c.threshold)) ∧
      (c.direction = .equality →
        gr_constraint_signed_distance c coords n =
          ((c.tolerance - |gr_constraint_get_value c coords n - c.threshold| : ℝ) :
            WithTop ℝ) ∧
        (gr_constraint_is_violated c coords n = true ↔
          c.tolerance < |gr_constraint_get_value c coords n - c.threshold|))) ∧
    (c.active = false →
      gr_constraint_signed_distance c coords n = ⊤ ∧
      gr_constraint_is_violated c coords n = false ∧
      ∀ cs, gr_constraints_min_distance (c :: cs) coords n =
        gr_constraints_min_distance cs coords n) := by
  constructor
  · intro hact
    refine ⟨?_, ?_, ?_⟩ <;> intro hdir <;>
      simp [gr_constraint_signed_distance, gr_constraint_is_violated, hact, hdir]
  · intro hact
    have hsd : gr_constraint_signed_distance c coords n = ⊤ := by
      simp [gr_constraint_signed_distance, hact]
    refine ⟨hsd, by simp [gr_constraint_is_violated, hact], ?_⟩
    intro cs
    simp [gr_constraints_min_distance, hsd]

/-- Witness for C5 at a concrete upper constraint: at coordinate 98 the
signed distance to the threshold 100 is +2 and the constraint is not
violated; the deactivated copy has distance +∞ and is not violated. -/
theorem constraint_signed_distance_spec_witness :
    gr_constraint_signed_distance constraintUp [98] 1 = ((2 : ℝ) : WithTop ℝ) ∧
    gr_constraint_is_violated constraintUp [98] 1 = false ∧
    gr_constraint_signed_distance constraintOff [98] 1 = ⊤ ∧
    gr_constraint_is_violated constraintOff [98] 1 = false := by
  have hval : gr_constraint_get_value constraintUp [98] 1 = 98 := by
    simp [gr_constraint_get_value, constraintUp]
  have h := (constraint_signed_distance_spec constraintUp [98] 1).1 rfl
  have hup := h.1 rfl
  have hoff := (constraint_signed_distance_spec constraintOff [98] 1).2 rfl
  refine ⟨?_, ?_, hoff.1, hoff.2.1⟩
  · rw [hup.1, hval]
    norm_num [constraintUp]
  · rcases Bool.eq_false_or_eq_true (gr_constraint_is_violated constraintUp [98] 1) with hb | hb
    · exfalso
      have := hup.2.mp hb
      rw [hval] at this
      norm_num [constraintUp] at this
    · exact hb

/-- C10: every public accessor applied to a NULL object or to one whose
compute has not yet succeeded returns 0.0 rather than reporting an error:
gr_jacobian_get, gr_jacobian_norm, gr_hessian_get, gr_hessian_trace,
gr_hessian_frobenius_norm and gr_hessian_condition_number. -/
theorem invalid_object_accessors_return_zero (j : GrJacobian) (h : GrHessian)
    (d r c : ℤ) (hj : j.valid = false) (hh : h.valid = false) :
    gr_jacobian_get (some j) d = 0 ∧
    gr_jacobian_norm (some j) = 0 ∧
    gr_hessian_get (some h) r c = 0 ∧
    gr_hessian_trace (some h) = 0 ∧
    gr_hessian_frobenius_norm (some h) = 0 ∧
    gr_hessian_condition_number (some h) = 0 ∧
    gr_jacobian_get none d = 0 ∧
    gr_jacobian_norm none = 0 ∧
    gr_hessian_get none r c = 0 ∧
    gr_hessian_trace none = 0 ∧
    gr_hessian_frobenius_norm none = 0 ∧
    gr_hessian_condition_number none = 0 := by
  refine ⟨?_, ?_, ?_, ?_, ?_, ?_, ?_, ?_, ?_, ?_, ?_, ?_⟩ <;>
    simp [gr_jacobian_get, gr_jacobian_norm, gr_hessian_get, gr_hessian_trace,
      gr_hessian_frobenius_norm, gr_hessian_condition_number, hj, hh]

/-- Witness for C10 at freshly allocated (hence invalid) objects. -/
theorem invalid_object_accessors_return_zero_witness :
    gr_jacobian_get (some (gr_jacobian_new 1)) 0 = 0 ∧
    gr_jacobian_norm (some (gr_jacobian_new 1)) = 0 ∧
    gr_hessian_get (some (gr_hessian_new 1)) 0 0 = 0 ∧
    gr_hessian_trace (some (gr_hessian_new 1)) = 0 ∧
    gr_hessian_frobenius_norm (some (gr_hessian_new 1)) = 0 ∧
    gr_hessian_condition_number (some (gr_hessian_new 1)) = 0 := by
  have h := invalid_object_accessors_return_zero (gr_jacobian_new 1) (gr_hessian_new 1)
    0 0 0 rfl rfl
  exact ⟨h.1, h.2.1, h.2.2.1, h.2.2.2.1, h.2.2.2.2.1, h.2.2.2.2.2.1⟩

/-- C6: on a state space with stale prices, gr_jacobian_compute and the
second gr_hessian_compute variant detect the staleness on entry, return
notInitialized and leave the object untouched — but the first
gr_hessian_compute variant (the one at the cited lines) performs no
validity check: on the same stale space it returns success and marks the
Hessian valid, silently differencing the zero values that interpolation
yields on an invalid price grid. -/
theorem stale_prices_hessian_v1_not_detected :
    gr_jacobian_compute (gr_jacobian_new 1) spaceStale [0] 1e-4 =
      (.notInitialized, gr_jacobian_new 1) ∧
    gr_hessian_compute_v2 (gr_hessian_new 1) spaceStale [0] 1e-4 =
      (.notInitialized, gr_hessian_new 1) ∧
    (gr_hessian_compute_v1 (gr_hessian_new 1) spaceStale [0] 1e-4).1 = .success ∧
    (gr_hessian_compute_v1 (gr_hessian_new 1) spaceStale [0] 1e-4).2.valid = true := by
  refine ⟨?_, ?_, ?_, ?_⟩ <;>
    simp [gr_jacobian_compute, gr_hessian_compute_v1, gr_hessian_compute_v2,
      gr_jacobian_new, gr_hessian_new, spaceStale]

/-- The Jacobi off-diagonal norm of any 1×1 matrix is zero. -/
theorem gr_jacobi_off_diag_norm_one (M : ℕ → ℕ → ℝ) :
    gr_jacobi_off_diag_norm M 1 = 0 := by
  simp [gr_jacobi_off_diag_norm, Finset.filter_singleton]

/-- The exchange sort leaves a singleton unchanged. -/
theorem gr_eig_sort_singleton (x : ℝ) : gr_eig_sort [x] = [x] := by
  rw [gr_eig_sort]
  show gr_eig_sort_go (0 + 1) [x] = [x]
  rw [gr_eig_sort_go]
  simp [gr_eig_sort_pass, gr_eig_sort_go]

/-- Jacobi on a 1×1 matrix converges immediately to the diagonal entry. -/
theorem gr_eigenvalues_jacobi_one (M : ℕ → ℕ → ℝ) :
    gr_eigenvalues_jacobi M 1 = .ok [M 0 0] := by
  rw [gr_eigenvalues_jacobi, show (100 : ℕ) = 99 + 1 from rfl,
    gr_eigenvalues_jacobi_loop]
  rw [if_pos (by rw [gr_jacobi_off_diag_norm_one]; norm_num)]
  have : (List.range 1).map (fun i => M i i) = [M 0 0] := by
    simp [List.range_succ]
  rw [this, gr_eig_sort_singleton]

/-- C7: with every eigenvalue negligible (the 1×1 zero Hessian), the
condition number is NOT the large sentinel the specification mandates: the
retained minimum stays at its 1e300 initialiser, the dead sentinel branch
(min < 1e−15) is skipped, and max/min = 0/1e300 = 0 is returned. -/
theorem condition_number_all_negligible_is_zero :
    gr_hessian_condition_number (some hessZero) = 0 ∧ (0 : ℝ) < 1e15 := by
  constructor
  · simp only [gr_hessian_condition_number, gr_compute_eigenvalues_internal, hessZero,
      gr_eigenvalues_jacobi_one]
    norm_num [gr_condition_from_eigenvalues, gr_condition_scan]
  · norm_num

/-- The exchange-sort pass returns a pivot of maximal absolute value:
the final pivot dominates the starting pivot. -/
theorem gr_eig_sort_pass_fst_ge (x : ℝ) (l : List ℝ) :
    |x| ≤ |(gr_eig_sort_pass x l).1| := by
  induction l generalizing x with
  | nil => simp [gr_eig_sort_pass]
  | cons y ys ih =>
    rw [gr_eig_sort_pass]
    by_cases h : |x| < |y|
    · rw [if_pos h]
      exact le_of_lt (lt_of_lt_of_le h (ih y))
    · rw [if_neg h]
      exact ih x

/-- The exchange-sort pass returns a pivot dominating every displaced
element. -/
theorem gr_eig_sort_pass_snd_le (x : ℝ) (l : List ℝ) :
    ∀ z ∈ (gr_eig_sort_pass x l).2, |z| ≤ |(gr_eig_sort_pass x l).1| := by
  induction l generalizing x with
  | nil => simp [gr_eig_sort_pass]
  | cons y ys ih =>
    intro z hz
    rw [gr_eig_sort_pass] at hz ⊢
    by_cases h : |x| < |y|
    · rw [if_pos h] at hz ⊢
      rcases List.mem_cons.mp hz with rfl | hz'
      · exact le_trans (le_of_lt h) (gr_eig_sort_pass_fst_ge y ys)
      · exact ih y z hz'
    · rw [if_neg h] at hz ⊢
      rcases List.mem_cons.mp hz with rfl | hz'
      · exact le_trans (not_lt.mp h) (gr_eig_sort_pass_fst_ge x ys)
      · exact ih x z hz'

/-- The exchange-sort pass permutes the pivot and the list. -/
theorem gr_eig_sort_pass_perm (x : ℝ) (l : List ℝ) :
    List.Perm ((gr_eig_sort_pass x l).1 :: (gr_eig_sort_pass x l).2) (x :: l) := by
  induction l generalizing x with
  | nil => simp [gr_eig_sort_pass]
  | cons y ys ih =>
    rw [gr_eig_sort_pass]
    by_cases h : |x| < |y|
    · rw [if_pos h]
      exact (List.Perm.swap x (gr_eig_sort_pass y ys).1 _).trans ((ih y).cons x)
    · rw [if_neg h]
      exact ((List.Perm.swap y (gr_eig_sort_pass x ys).1 _).trans
        ((ih x).cons y)).trans (List.Perm.swap x y ys)

/-- Every element of the exchange-sorted list comes from the input. -/
theorem gr_eig_sort_go_mem : ∀ (fuel : ℕ) (l : List ℝ) (z : ℝ),
    z ∈ gr_eig_sort_go fuel l → z ∈ l := by
  intro fuel
  induction fuel with
  | zero => intro l z hz; simp [gr_eig_sort_go] at hz
  | succ f ih =>
    intro l z hz
    match l with
    | [] => simp [gr_eig_sort_go] at hz
    | x :: xs =>
      rw [gr_eig_sort_go] at hz
      rcases List.mem_cons.mp hz with rfl | hz'
      · exact (gr_eig_sort_pass_perm x xs).mem_iff.mp (List.mem_cons_self _ _)
      · exact (gr_eig_sort_pass_perm x xs).mem_iff.mp
          (List.mem_cons_of_mem _ (ih _ z hz'))

/-- The exchange sort produces a list that is pairwise descending in
absolute value. -/
theorem gr_eig_sort_go_pairwise : ∀ (fuel : ℕ) (l : List ℝ),
    (gr_eig_sort_go fuel l).Pairwise (fun a b => |b| ≤ |a|) := by
  intro fuel
  induction fuel with
  | zero => intro l; simp [gr_eig_sort_go]
  | succ f ih =>
    intro l
    match l with
    | [] => simp [gr_eig_sort_go]
    | x :: xs =>
      rw [gr_eig_sort_go]
      refine List.Pairwise.cons ?_ (ih _)
      intro z hz
      exact gr_eig_sort_pass_snd_le x xs z (gr_eig_sort_go_mem f _ z hz)

/-- A successful Jacobi loop returns a list sorted descending by absolute
value (the success branch returns the exchange-sorted diagonal). -/
theorem gr_eigenvalues_jacobi_loop_sorted : ∀ (fuel n : ℕ) (M : ℕ → ℕ → ℝ)
    (evs : List ℝ), gr_eigenvalues_jacobi_loop n M fuel = .ok evs →
    evs.Pairwise (fun a b => |b| ≤ |a|) := by
  intro fuel
  induction fuel with
  | zero =>
    intro n M evs h
    simp [gr_eigenvalues_jacobi_loop] at h
  | succ f ih =>
    intro n M evs h
    rw [gr_eigenvalues_jacobi_loop] at h
    by_cases hc : gr_jacobi_off_diag_norm M n < 1e-12
    · rw [if_pos hc] at h
      cases h
      exact gr_eig_sort_go_pairwise _ _
    · rw [if_neg hc] at h
      exact ih n _ evs h

/-- C2: after a successful eigenvalue computation (the cache being cold,
so gr_eigenvalues_jacobi actually runs), the eigenvalue vector returned by
gr_hessian_eigenvalues is sorted in descending order of absolute value:
|λ_0| ≥ |λ_1| ≥ … . -/
theorem hessian_eigenvalues_sorted_descending_abs (hess : GrHessian) (num : ℕ)
    (evs : List ℝ) (after : GrHessian) (hcache : hess.eigen_valid = false)
    (hok : gr_hessian_eigenvalues hess num = .ok (evs, after)) :
    evs.Pairwise (fun a b => |b| ≤ |a|) := by
  rw [gr_hessian_eigenvalues] at hok
  by_cases hv : hess.valid = false
  · rw [if_pos hv] at hok
    exact absurd hok (by simp)
  rw [if_neg hv] at hok
  by_cases hn : num = 0
  · rw [if_pos hn] at hok
    exact absurd hok (by simp)
  rw [if_neg hn] at hok
  rcases heq : gr_compute_eigenvalues_internal hess with e | pr
  · rw [heq] at hok
    exact absurd hok (by simp)
  · rw [heq] at hok
    simp only [Except.ok.injEq, Prod.mk.injEq] at hok
    rw [gr_compute_eigenvalues_internal, if_neg (by simp [hcache]), if_neg hv] at heq
    rcases hjac : gr_eigenvalues_jacobi
        (fun i j => hess.data.getD (i * hess.num_dims + j) 0) hess.num_dims with e1 | evs1
    · rw [hjac] at heq
      exact absurd heq (by simp)
    · rw [hjac] at heq
      simp only [Except.ok.injEq] at heq
      have hsorted : evs1.Pairwise (fun a b => |b| ≤ |a|) :=
        gr_eigenvalues_jacobi_loop_sorted 100 hess.num_dims _ evs1 hjac
      have hfst : pr.1 = evs1 := by
        rw [← heq]
      have : evs = evs1.take (min num hess.num_dims) := by
        rw [← hok.1, hfst]
      rw [this]
      exact List.Pairwise.sublist (List.take_sublist _ _) hsorted

/-- Witness for C2: on the valid 1×1 Hessian [5] with a cold eigenvalue
cache, gr_hessian_eigenvalues succeeds with [5], which is sorted. -/
theorem hessian_eigenvalues_sorted_descending_abs_witness :
    gr_hessian_eigenvalues hessFive 1 = .ok ([5], hessFiveAfter) ∧
    List.Pairwise (fun a b : ℝ => |b| ≤ |a|) [(5 : ℝ)] := by
  have heval : gr_hessian_eigenvalues hessFive 1 = .ok ([5], hessFiveAfter) := by
    simp only [gr_hessian_eigenvalues, gr_compute_eigenvalues_internal, hessFive,
      hessFiveAfter, gr_eigenvalues_jacobi_one]
    norm_num
  exact ⟨heval,
    hessian_eigenvalues_sorted_descending_abs hessFive 1 [5] hessFiveAfter rfl heval⟩

/-- C9: for a transport metric whose tensor field is constant (no samples,
so every interpolation returns the default tensor G), the 100-step
midpoint geodesic approximation — and hence gr_transport_distance —
equals sqrt((b−a)^T G (b−a)) exactly. -/
theorem transport_distance_constant_metric (m : GrTransportMetric)
    (hs : m.samples = []) (hn : m.num_dims ≠ 0) (a b : List ℝ) :
    gr_geodesic_distance_approx m a b =
      Real.sqrt (gr_metric_quadratic_form (gr_metric_default m)
        ((List.range m.num_dims).map (fun i => b.getD i 0 - a.getD i 0)) m.num_dims) ∧
    gr_transport_distance (some m) a b m.num_dims =
      gr_geodesic_distance_approx m a b := by
  have hint : ∀ coords, gr_metric_interpolate m coords = gr_metric_default m := by
    intro coords
    rw [gr_metric_interpolate, if_pos (by rw [hs]; rfl)]
  constructor
  · rw [gr_geodesic_distance_approx]
    simp only [hint]
    rw [Finset.sum_const, Finset.card_range, nsmul_eq_mul]
    by_cases hq : 0 < gr_metric_quadratic_form (gr_metric_default m)
        ((List.range m.num_dims).map (fun i => b.getD i 0 - a.getD i 0)) m.num_dims
    · rw [if_pos hq]
      ring
    · rw [if_neg hq]
      rw [Real.sqrt_eq_zero'.mpr (le_of_not_lt hq)]
      ring
  · simp [gr_transport_distance, hn]

/-- Witness for C9: for the identity metric in one dimension, the
transport distance from 0 to 3 is sqrt(3·1·3) = 3. -/
theorem transport_distance_constant_metric_witness :
    gr_transport_distance (some metricId1) [0] [3] 1 = 3 := by
  have h := transport_distance_constant_metric metricId1 rfl (by simp [metricId1]) [0] [3]
  have hdim : metricId1.num_dims = 1 := rfl
  rw [hdim] at h
  rw [h.2, h.1]
  have hq : gr_metric_quadratic_form (gr_metric_default metricId1)
      ((List.range 1).map (fun i => ([3] : List ℝ).getD i 0 - ([0] : List ℝ).getD i 0)) 1
      = 9 := by
    norm_num [gr_metric_quadratic_form, gr_metric_default, gr_metric_identity, metricId1,
      List.range_succ]
  rw [hq, show (9 : ℝ) = 3 ^ 2 by norm_num, Real.sqrt_sq (by norm_num : (0:ℝ) ≤ 3)]

/-- getD of a map over List.range, in range. -/
theorem gr_getD_range_map {α : Type} [Inhabited α] (f : ℕ → α) (n d : ℕ)
    (hd : d < n) (a : α) : ((List.range n).map f).getD d a = f d := by
  simp [List.getD_eq_getElem?_getD, List.getElem?_range hd]

/-- getD of a list, in range, is a member. -/
theorem gr_getD_mem {α : Type} [Inhabited α] {l : List α} {d : ℕ}
    (hd : d < l.length) : l.getD d default ∈ l := by
  rw [List.getD_eq_getElem?_getD, List.getElem?_eq_getElem hd]
  exact List.getElem_mem hd

/-- getD of the zipWith forming node coordinates, in range. -/
theorem gr_node_coord_getD (dims : List GrDimension) (idx : List ℕ) {d : ℕ}
    (hd : d < dims.length) (hlen : idx.length = dims.length) :
    (List.zipWith (fun dm i => gr_dimension_grid dm i) dims idx).getD d 0 =
      gr_dimension_grid (dims.getD d default) (idx.getD d 0) := by
  have hd2 : d < idx.length := by omega
  simp [List.getD_eq_getElem?_getD, List.getElem?_zipWith',
    List.getElem?_eq_getElem hd, List.getElem?_eq_getElem hd2]

/-- The grid step of a well-formed dimension is positive. -/
theorem gr_dimension_step_pos (dm : GrDimension) (hmm : dm.min_value < dm.max_value)
    (h2 : 2 ≤ dm.num_points) : 0 < gr_dimension_step dm := by
  rw [gr_dimension_step]
  apply div_pos (by linarith)
  have h1 : 0 < dm.num_points - 1 := by omega
  exact_mod_cast h1

/-- Every grid node, including the forced last one, lies on the arithmetic
progression min + i·step. -/
theorem gr_dimension_grid_linear (dm : GrDimension) (h2 : 2 ≤ dm.num_points)
    {i : ℕ} (hi : i ≤ dm.num_points - 1) :
    gr_dimension_grid dm i = dm.min_value + (i : ℝ) * gr_dimension_step dm := by
  rw [gr_dimension_grid]
  by_cases hlast : i = dm.num_points - 1
  · rw [if_pos hlast, hlast, gr_dimension_step]
    have hne : ((dm.num_points - 1 : ℕ) : ℝ) ≠ 0 :=
      Nat.cast_ne_zero.mpr (by omega)
    rw [mul_comm, div_mul_cancel₀ _ hne]
    ring
  · rw [if_neg hlast]

/-- Grid nodes of a well-formed dimension are strictly increasing. -/
theorem gr_dimension_grid_strict_mono (dm : GrDimension)
    (hmm : dm.min_value < dm.max_value) (h2 : 2 ≤ dm.num_points)
    {i j : ℕ} (hij : i < j) (hj : j ≤ dm.num_points - 1) :
    gr_dimension_grid dm i < gr_dimension_grid dm j := by
  rw [gr_dimension_grid_linear dm h2 (le_trans (le_of_lt hij) hj),
    gr_dimension_grid_linear dm h2 hj]
  have hs := gr_dimension_step_pos dm hmm h2
  have hcast : (i : ℝ) < (j : ℝ) := by exact_mod_cast hij
  nlinarith

/-- The bracket search returns the first matching bracket. -/
theorem gr_search_bracket_first (dm : GrDimension) (val : ℝ) :
    ∀ (fuel i k : ℕ), i ≤ k → k < i + fuel →
    (∀ l, i ≤ l → l < k →
      ¬(gr_dimension_grid dm l ≤ val ∧ val ≤ gr_dimension_grid dm (l + 1))) →
    (gr_dimension_grid dm k ≤ val ∧ val ≤ gr_dimension_grid dm (k + 1)) →
    gr_search_bracket dm val i fuel =
      (k, k + 1,
        if 1e-15 < gr_dimension_grid dm (k + 1) - gr_dimension_grid dm k then
          (val - gr_dimension_grid dm k) /
            (gr_dimension_grid dm (k + 1) - gr_dimension_grid dm k)
        else 0) := by
  intro fuel
  induction fuel with
  | zero => intro i k hik hk _ _; omega
  | succ f ih =>
    intro i k hik hk hno hyes
    rw [gr_search_bracket]
    rcases Nat.eq_or_lt_of_le hik with rfl | hlt
    · rw [if_pos hyes]
    · rw [if_neg (hno i (le_refl i) hlt)]
      exact ih (i + 1) k hlt (by omega) (fun l hl1 hl2 => hno l (by omega) hl2) hyes

/-- At the exact coordinate of grid node i, the clamp-and-bracket step
yields an interpolation parameter t ∈ {0, 1} whose selected corner index
is exactly i. -/
theorem gr_bracket_at_node (dm : GrDimension) (hmm : dm.min_value < dm.max_value)
    (h2 : 2 ≤ dm.num_points) (hstep : 1e-15 < gr_dimension_step dm)
    {i : ℕ} (hi : i < dm.num_points) :
    ((gr_bracket dm (gr_dimension_grid dm i)).2.2 = 0 ∨
      (gr_bracket dm (gr_dimension_grid dm i)).2.2 = 1) ∧
    (if (gr_bracket dm (gr_dimension_grid dm i)).2.2 = 1 then
        (gr_bracket dm (gr_dimension_grid dm i)).2.1
      else (gr_bracket dm (gr_dimension_grid dm i)).1) = i := by
  have hspos : 0 < gr_dimension_step dm := lt_trans (by norm_num) hstep
  by_cases h0 : i = 0
  · subst h0
    have hv : gr_dimension_grid dm 0 = dm.min_value := by
      rw [gr_dimension_grid_linear dm h2 (by omega)]
      simp
    have hb : gr_bracket dm (gr_dimension_grid dm 0) = (0, 0, 0) := by
      rw [gr_bracket, if_pos (le_of_eq hv)]
    rw [hb]
    norm_num
  by_cases hlast : i = dm.num_points - 1
  · subst hlast
    have hv : gr_dimension_grid dm (dm.num_points - 1) = dm.max_value := by
      rw [gr_dimension_grid, if_pos rfl]
    have hb : gr_bracket dm (gr_dimension_grid dm (dm.num_points - 1)) =
        (dm.num_points - 1, dm.num_points - 1, 0) := by
      rw [gr_bracket, if_neg (by rw [hv]; exact not_le.mpr hmm),
        if_pos (le_of_eq hv.symm)]
    rw [hb]
    norm_num
  · -- interior node: 0 < i < num_points − 1
    have hi1 : 1 ≤ i := by omega
    have hiN : i < dm.num_points - 1 := by omega
    have hvlo : dm.min_value < gr_dimension_grid dm i := by
      rw [gr_dimension_grid_linear dm h2 (by omega)]
      have : (1 : ℝ) ≤ (i : ℝ) := by exact_mod_cast hi1
      nlinarith
    have hmax : gr_dimension_grid dm (dm.num_points - 1) = dm.max_value := by
      rw [gr_dimension_grid, if_pos rfl]
    have hvhi : gr_dimension_grid dm i < dm.max_value := by
      have := gr_dimension_grid_strict_mono dm hmm h2 hiN (le_refl _)
      rwa [hmax] at this
    have hb : gr_bracket dm (gr_dimension_grid dm i) =
        (i - 1, i - 1 + 1,
          if 1e-15 < gr_dimension_grid dm (i - 1 + 1) - gr_dimension_grid dm (i - 1) then
            (gr_dimension_grid dm i - gr_dimension_grid dm (i - 1)) /
              (gr_dimension_grid dm (i - 1 + 1) - gr_dimension_grid dm (i - 1))
          else 0) := by
      rw [gr_bracket, if_neg (not_le.mpr hvlo), if_neg (not_le.mpr hvhi)]
      exact gr_search_bracket_first dm (gr_dimension_grid dm i) (dm.num_points - 1)
        0 (i - 1) (by omega) (by omega)
        (fun l _ hl => by
          intro hcl
          have : gr_dimension_grid dm (l + 1) < gr_dimension_grid dm i :=
            gr_dimension_grid_strict_mono dm hmm h2 (by omega) (by omega)
          linarith [hcl.2])
        ⟨le_of_lt (gr_dimension_grid_strict_mono dm hmm h2 (by omega) (by omega)),
          by rw [show i - 1 + 1 = i from by omega]⟩
    rw [show i - 1 + 1 = i from by omega] at hb
    have hrange : gr_dimension_grid dm i - gr_dimension_grid dm (i - 1) =
        gr_dimension_step dm := by
      rw [gr_dimension_grid_linear dm h2 (le_of_lt hiN),
        gr_dimension_grid_linear dm h2 (by omega : i - 1 ≤ dm.num_points - 1)]
      have : ((i - 1 : ℕ) : ℝ) = (i : ℝ) - 1 := by
        push_cast [Nat.cast_sub hi1]
        ring
      rw [this]
      ring
    have ht1 : (gr_bracket dm (gr_dimension_grid dm i)).2.2 = 1 := by
      rw [hb]
      show (if 1e-15 < gr_dimension_grid dm i - gr_dimension_grid dm (i - 1) then
        (gr_dimension_grid dm i - gr_dimension_grid dm (i - 1)) /
          (gr_dimension_grid dm i - gr_dimension_grid dm (i - 1)) else 0) = 1
      rw [if_pos (by rw [hrange]; exact hstep), hrange]
      exact div_self (ne_of_gt hspos)
    refine ⟨Or.inr ht1, ?_⟩
    rw [if_pos ht1, hb]

/-- When every interpolation parameter is 0 or 1, the 2^n-corner
multilinear sum collapses to the single corner selected per dimension:
hi where t = 1, lo where t = 0. -/
theorem gr_corner_sum_delta (t : ℕ → ℝ) (lo hi st : ℕ → ℕ) :
    ∀ (n : ℕ) (g : ℕ → ℝ), (∀ d, d < n → t d = 0 ∨ t d = 1) →
    (∑ c ∈ Finset.range (2 ^ n),
      (∏ d ∈ Finset.range n, (if Nat.testBit c d then t d else 1 - t d)) *
        g (∑ d ∈ Finset.range n, (if Nat.testBit c d then hi d else lo d) * st d))
    = g (∑ d ∈ Finset.range n, (if t d = 1 then hi d else lo d) * st d) := by
  intro n
  induction n with
  | zero => intro g _; simp
  | succ n ih =>
    intro g ht
    have hsplit : ∀ F : ℕ → ℝ, ∑ c ∈ Finset.range (2 ^ (n + 1)), F c =
        (∑ c ∈ Finset.range (2 ^ n), F c) +
          ∑ c ∈ Finset.range (2 ^ n), F (2 ^ n + c) := by
      intro F
      have h1 : (2 : ℕ) ^ (n + 1) = 2 ^ n + 2 ^ n := by
        rw [pow_succ]; omega
      rw [h1, Finset.range_eq_Ico,
        ← Finset.sum_Ico_consecutive _ (Nat.zero_le (2 ^ n)) (Nat.le_add_right _ _)]
      congr 1
      rw [Finset.sum_Ico_eq_sum_range, Nat.add_sub_cancel, ← Finset.range_eq_Ico]
    rw [hsplit]
    have hbitlow : ∀ c ∈ Finset.range (2 ^ n), Nat.testBit c n = false := fun c hc =>
      Nat.testBit_lt_two_pow (Finset.mem_range.mp hc)
    have hbithigh : ∀ c ∈ Finset.range (2 ^ n), Nat.testBit (2 ^ n + c) n = true := by
      intro c hc
      rw [Nat.testBit_two_pow_add_eq, hbitlow c hc]
      rfl
    have hbitsame : ∀ c, ∀ d < n, Nat.testBit (2 ^ n + c) d = Nat.testBit c d :=
      fun c d hd => Nat.testBit_two_pow_add_gt hd c
    rcases ht n (Nat.lt_succ_self n) with h0 | h1
    · -- t n = 0: the high-bit corners all carry weight factor t n = 0
      have hB : ∑ c ∈ Finset.range (2 ^ n),
          (∏ d ∈ Finset.range (n + 1),
            (if Nat.testBit (2 ^ n + c) d then t d else 1 - t d)) *
            g (∑ d ∈ Finset.range (n + 1),
              (if Nat.testBit (2 ^ n + c) d then hi d else lo d) * st d) = 0 := by
        apply Finset.sum_eq_zero
        intro c hc
        apply mul_eq_zero_of_left
        apply Finset.prod_eq_zero (Finset.mem_range.mpr (Nat.lt_succ_self n))
        rw [hbithigh c hc, if_pos rfl, h0]
      rw [hB, add_zero]
      have hA : ∀ c ∈ Finset.range (2 ^ n),
          (∏ d ∈ Finset.range (n + 1), (if Nat.testBit c d then t d else 1 - t d)) *
            g (∑ d ∈ Finset.range (n + 1),
              (if Nat.testBit c d then hi d else lo d) * st d)
          = (∏ d ∈ Finset.range n, (if Nat.testBit c d then t d else 1 - t d)) *
            (fun s => g (s + lo n * st n))
              (∑ d ∈ Finset.range n, (if Nat.testBit c d then hi d else lo d) * st d) := by
        intro c hc
        rw [Finset.prod_range_succ, Finset.sum_range_succ, hbitlow c hc]
        simp [h0]
      rw [Finset.sum_congr rfl hA, ih (fun s => g (s + lo n * st n)) (fun d hd => ht d (by omega))]
      rw [Finset.sum_range_succ, if_neg (by rw [h0]; norm_num)]
    · -- t n = 1: the low-bit corners all carry weight factor 1 − t n = 0
      have hA : ∑ c ∈ Finset.range (2 ^ n),
          (∏ d ∈ Finset.range (n + 1), (if Nat.testBit c d then t d else 1 - t d)) *
            g (∑ d ∈ Finset.range (n + 1),
              (if Nat.testBit c d then hi d else lo d) * st d) = 0 := by
        apply Finset.sum_eq_zero
        intro c hc
        apply mul_eq_zero_of_left
        apply Finset.prod_eq_zero (Finset.mem_range.mpr (Nat.lt_succ_self n))
        rw [hbitlow c hc]
        simp [h1]
      rw [hA, zero_add]
      have hB : ∀ c ∈ Finset.range (2 ^ n),
          (∏ d ∈ Finset.range (n + 1),
            (if Nat.testBit (2 ^ n + c) d then t d else 1 - t d)) *
            g (∑ d ∈ Finset.range (n + 1),
              (if Nat.testBit (2 ^ n + c) d then hi d else lo d) * st d)
          = (∏ d ∈ Finset.range n, (if Nat.testBit c d then t d else 1 - t d)) *
            (fun s => g (s + hi n * st n))
              (∑ d ∈ Finset.range n, (if Nat.testBit c d then hi d else lo d) * st d) := by
        intro c hc
        rw [Finset.prod_range_succ, Finset.sum_range_succ, hbithigh c hc]
        have hw : ∀ d ∈ Finset.range n,
            (if Nat.testBit (2 ^ n + c) d then t d else 1 - t d) =
              (if Nat.testBit c d then t d else 1 - t d) := by
          intro d hd
          rw [hbitsame c d (Finset.mem_range.mp hd)]
        have hx : ∀ d ∈ Finset.range n,
            (if Nat.testBit (2 ^ n + c) d then hi d else lo d) * st d =
              (if Nat.testBit c d then hi d else lo d) * st d := by
          intro d hd
          rw [hbitsame c d (Finset.mem_range.mp hd)]
        rw [Finset.prod_congr rfl hw, Finset.sum_congr rfl hx]
        simp [h1]
      rw [Finset.sum_congr rfl hB, ih (fun s => g (s + hi n * st n)) (fun d hd => ht d (by omega))]
      rw [Finset.sum_range_succ, if_pos h1]

/-- getD of the clamped coordinate list, in range. -/
theorem gr_clamp_coords_getD (dims : List GrDimension) (coords : List ℝ) {d : ℕ}
    (hd : d < dims.length) :
    (gr_clamp_coords dims coords).getD d 0 =
      max (dims.getD d default).min_value
        (min (dims.getD d default).max_value (coords.getD d 0)) := by
  rw [gr_clamp_coords]
  exact gr_getD_range_map _ _ _ hd 0

/-- The per-dimension bracket is invariant under clamping the coordinate
to [min, max]: at or beyond a boundary both collapse to the boundary
bracket. -/
theorem gr_bracket_clamp (dm : GrDimension) (hmm : dm.min_value < dm.max_value)
    (v : ℝ) :
    gr_bracket dm (max dm.min_value (min dm.max_value v)) = gr_bracket dm v := by
  rcases le_or_lt v dm.min_value with h | h
  · have hc : max dm.min_value (min dm.max_value v) = dm.min_value := by
      rw [min_eq_right (le_trans h (le_of_lt hmm)), max_eq_left h]
    rw [hc, gr_bracket, gr_bracket, if_pos (le_refl _), if_pos h]
  · rcases le_or_lt dm.max_value v with h2 | h2
    · have hc : max dm.min_value (min dm.max_value v) = dm.max_value := by
        rw [min_eq_left h2, max_eq_right (le_of_lt hmm)]
      rw [hc, gr_bracket, gr_bracket, if_neg (not_le.mpr hmm), if_pos (le_refl _),
        if_neg (not_le.mpr (lt_of_le_of_lt' h2 hmm)), if_pos h2]
    · have hc : max dm.min_value (min dm.max_value v) = v := by
        rw [min_eq_right (le_of_lt h2), max_eq_right (le_of_lt h)]
      rw [hc]

/-- C8: on a well-formed state space (each dimension non-degenerate with
grid step above the 1e−15 floating floor) with valid prices, multilinear
interpolation at the exact coordinates of any grid node returns the
stored price at that node, and interpolation at an arbitrary point equals
interpolation at the per-dimension clamp of that point, so coordinates at
or beyond a boundary collapse to the boundary value. -/
theorem interpolation_node_exact_and_boundary_clamped (sp : GrStateSpace)
    (hwf : ∀ dm ∈ sp.dims, dm.min_value < dm.max_value ∧ 2 ≤ dm.num_points)
    (hstep : ∀ dm ∈ sp.dims, 1e-15 < gr_dimension_step dm)
    (hv : sp.prices_valid = true) (hp : sp.prices ≠ [])
    (idx : List ℕ) (hlen : idx.length = sp.dims.length)
    (hidx : ∀ d, d < sp.dims.length →
      idx.getD d 0 < (sp.dims.getD d default).num_points) :
    gr_state_space_interpolate_price sp
        (List.zipWith (fun dm i => gr_dimension_grid dm i) sp.dims idx) =
      sp.prices.getD (gr_state_space_flat_index sp.dims idx) 0 ∧
    ∀ coords, gr_state_space_interpolate_price sp coords =
      gr_state_space_interpolate_price sp (gr_clamp_coords sp.dims coords) := by
  constructor
  · rw [gr_state_space_interpolate_price, if_pos ⟨hv, hp⟩]
    simp only [gr_interp_weight, gr_interp_index]
    have hB : ∀ d, d < sp.dims.length →
        ((gr_bracket (sp.dims.getD d default)
            ((List.zipWith (fun dm i => gr_dimension_grid dm i) sp.dims idx).getD d 0)).2.2
            = 0 ∨
          (gr_bracket (sp.dims.getD d default)
            ((List.zipWith (fun dm i => gr_dimension_grid dm i) sp.dims idx).getD d 0)).2.2
            = 1) ∧
        (if (gr_bracket (sp.dims.getD d default)
              ((List.zipWith (fun dm i => gr_dimension_grid dm i) sp.dims idx).getD d 0)).2.2
              = 1 then
            (gr_bracket (sp.dims.getD d default)
              ((List.zipWith (fun dm i => gr_dimension_grid dm i) sp.dims idx).getD d 0)).2.1
          else
            (gr_bracket (sp.dims.getD d default)
              ((List.zipWith (fun dm i => gr_dimension_grid dm i) sp.dims idx).getD d 0)).1)
          = idx.getD d 0 := by
      intro d hd
      rw [gr_node_coord_getD sp.dims idx hd hlen]
      have hmem := gr_getD_mem hd
      exact gr_bracket_at_node _ (hwf _ hmem).1 (hwf _ hmem).2 (hstep _ hmem)
        (hidx d hd)
    rw [gr_corner_sum_delta
      (fun d => (gr_bracket (sp.dims.getD d default)
        ((List.zipWith (fun dm i => gr_dimension_grid dm i) sp.dims idx).getD d 0)).2.2)
      (fun d => (gr_bracket (sp.dims.getD d default)
        ((List.zipWith (fun dm i => gr_dimension_grid dm i) sp.dims idx).getD d 0)).1)
      (fun d => (gr_bracket (sp.dims.getD d default)
        ((List.zipWith (fun dm i => gr_dimension_grid dm i) sp.dims idx).getD d 0)).2.1)
      (gr_stride sp.dims) sp.dims.length (fun k => sp.prices.getD k 0)
      (fun d hd => (hB d hd).1)]
    rw [gr_state_space_flat_index]
    congr 1
    exact Finset.sum_congr rfl (fun d hd => by
      rw [(hB d (Finset.mem_range.mp hd)).2])
  · intro coords
    have hbr : ∀ d, d < sp.dims.length →
        gr_bracket (sp.dims.getD d default)
            ((gr_clamp_coords sp.dims coords).getD d 0) =
          gr_bracket (sp.dims.getD d default) (coords.getD d 0) := by
      intro d hd
      rw [gr_clamp_coords_getD sp.dims coords hd]
      exact gr_bracket_clamp _ (hwf _ (gr_getD_mem hd)).1 _
    rw [gr_state_space_interpolate_price, gr_state_space_interpolate_price,
      if_pos ⟨hv, hp⟩, if_pos ⟨hv, hp⟩]
    apply Finset.sum_congr rfl
    intro c _
    have hw : (∏ d ∈ Finset.range sp.dims.length,
        gr_interp_weight (fun d => gr_bracket (sp.dims.getD d default)
          (coords.getD d 0)) c d) =
      ∏ d ∈ Finset.range sp.dims.length,
        gr_interp_weight (fun d => gr_bracket (sp.dims.getD d default)
          ((gr_clamp_coords sp.dims coords).getD d 0)) c d := by
      apply Finset.prod_congr rfl
      intro d hd
      simp only [gr_interp_weight]
      rw [hbr d (Finset.mem_range.mp hd)]
    have hx : (∑ d ∈ Finset.range sp.dims.length,
        gr_interp_index (fun d => gr_bracket (sp.dims.getD d default)
          (coords.getD d 0)) c d * gr_stride sp.dims d) =
      ∑ d ∈ Finset.range sp.dims.length,
        gr_interp_index (fun d => gr_bracket (sp.dims.getD d default)
          ((gr_clamp_coords sp.dims coords).getD d 0)) c d * gr_stride sp.dims d := by
      apply Finset.sum_congr rfl
      intro d hd
      simp only [gr_interp_index]
      rw [hbr d (Finset.mem_range.mp hd)]
    rw [hw, hx]

/-- Witness for C8 on the concrete 1-D space with prices [0, 100]: the
node multi-index [1] and the out-of-range query coordinate 42. -/
theorem interpolation_node_exact_witness :
    gr_state_space_interpolate_price spaceC3
        (List.zipWith (fun dm i => gr_dimension_grid dm i) spaceC3.dims [1]) =
      spaceC3.prices.getD (gr_state_space_flat_index spaceC3.dims [1]) 0 ∧
    gr_state_space_interpolate_price spaceC3 [(42 : ℝ)] =
      gr_state_space_interpolate_price spaceC3 (gr_clamp_coords spaceC3.dims [42]) := by
  have h := interpolation_node_exact_and_boundary_clamped spaceC3
    (by
      intro dm hdm
      rw [show spaceC3.dims = [⟨0, 10, 2⟩] from rfl, List.mem_singleton] at hdm
      subst hdm
      norm_num)
    (by
      intro dm hdm
      rw [show spaceC3.dims = [⟨0, 10, 2⟩] from rfl, List.mem_singleton] at hdm
      subst hdm
      norm_num [gr_dimension_step])
    rfl
    (by simp [spaceC3])
    [1] rfl
    (by
      intro d hd
      have hd0 : d = 0 := by
        simpa [spaceC3] using hd
      subst hd0
      simp [spaceC3])
  exact ⟨h.1, h.2 [42]⟩

/-- With matching dimensions and valid prices, gr_jacobian_compute always
succeeds and fully overwrites the object. -/
theorem gr_jacobian_compute_success (j : GrJacobian) (sp : GrStateSpace)
    (pt : List ℝ) (bump : ℝ) (hn : j.num_dims = sp.dims.length)
    (hv : sp.prices_valid = true) :
    gr_jacobian_compute j sp pt bump = (.success, gr_jacobian_result sp bump pt) := by
  rw [gr_jacobian_compute, if_neg (by simp [hn]), if_neg (by simp [hv])]
  rw [gr_jacobian_result]
  obtain ⟨n, p, q, v, b⟩ := j
  simp only at hn
  subst hn
  rfl

/-- With matching dimensions, the first gr_hessian_compute variant always
succeeds (valid prices are not even checked); it overwrites every field
except the eigenvalue cache, which it only invalidates. -/
theorem gr_hessian_compute_v1_success (h : GrHessian) (sp : GrStateSpace)
    (pt : List ℝ) (bump : ℝ) (hn : h.num_dims = sp.dims.length) :
    gr_hessian_compute_v1 h sp pt bump =
      (.success,
        ⟨sp.dims.length, gr_hessian_data_v1 sp bump pt,
          (List.range sp.dims.length).map (fun i => pt.getD i 0),
          h.eigenvalues, true, false⟩) := by
  rw [gr_hessian_compute_v1, if_neg (by simp [hn])]
  rw [gr_hessian_data_v1]
  obtain ⟨n, d, p, e, v, ev⟩ := h
  simp only at hn
  subst hn
  rfl

/-- The Frobenius norm and condition number of a Hessian depend only on
its matrix, dimension and validity flags, not on the stored point or the
(invalidated) eigenvalue cache. -/
theorem gr_hessian_derived_of_fields (n : ℕ) (d p1 p2 e1 e2 : List ℝ) (v : Bool) :
    gr_hessian_frobenius_norm (some ⟨n, d, p1, e1, v, false⟩) =
      gr_hessian_frobenius_norm (some ⟨n, d, p2, e2, v, false⟩) ∧
    gr_hessian_condition_number (some ⟨n, d, p1, e1, v, false⟩) =
      gr_hessian_condition_number (some ⟨n, d, p2, e2, v, false⟩) := by
  constructor
  · rfl
  · rw [gr_hessian_condition_number, gr_hessian_condition_number]
    cases v with
    | false => rfl
    | true =>
      simp only [Bool.true_eq_false, if_false]
      rw [gr_compute_eigenvalues_internal, gr_compute_eigenvalues_internal]
      simp only
      rcases hj : gr_eigenvalues_jacobi (fun i j => d.getD (i * n + j) 0) n with e | evs
      · simp
      · simp

/-- The score computed by the sweep body from the reused objects equals
gr_node_fragility: the stale eigenvalue cache the reused Hessian carries
does not influence any derived value. -/
theorem gr_sweep_fragility_eq (sp : GrStateSpace) (cfg : GrFragilityConfig)
    (bump : ℝ) (flat : ℕ) (evs : List ℝ) (hv : sp.prices_valid = true) :
    gr_fragility_combine
      (gr_fragility_from_gradient
        (gr_jacobian_norm (some (gr_jacobian_result sp bump (gr_get_coordinates sp.dims flat))))
        cfg.gradient_scale)
      (gr_fragility_from_curvature
        (gr_hessian_frobenius_norm (some
          ⟨sp.dims.length, gr_hessian_data_v1 sp bump (gr_get_coordinates sp.dims flat),
            (List.range sp.dims.length).map
              (fun i => (gr_get_coordinates sp.dims flat).getD i 0),
            evs, true, false⟩))
        cfg.curvature_scale)
      (gr_fragility_from_conditioning
        (gr_hessian_condition_number (some
          ⟨sp.dims.length, gr_hessian_data_v1 sp bump (gr_get_coordinates sp.dims flat),
            (List.range sp.dims.length).map
              (fun i => (gr_get_coordinates sp.dims flat).getD i 0),
            evs, true, false⟩))
        cfg.condition_threshold)
      0 cfg
    = gr_node_fragility sp cfg bump flat := by
  simp only [gr_node_fragility]
  rw [gr_jacobian_compute_success (gr_jacobian_new sp.dims.length) sp _ bump rfl hv,
    gr_hessian_compute_v1_success (gr_hessian_new sp.dims.length) sp _ bump rfl]
  have hder := gr_hessian_derived_of_fields sp.dims.length
    (gr_hessian_data_v1 sp bump (gr_get_coordinates sp.dims flat))
    ((List.range sp.dims.length).map (fun i => (gr_get_coordinates sp.dims flat).getD i 0))
    ((List.range sp.dims.length).map (fun i => (gr_get_coordinates sp.dims flat).getD i 0))
    evs ((gr_hessian_new sp.dims.length).eigenvalues) true
  rw [hder.1, hder.2]

/-- One sweep iteration on a valid-price space never skips: both computes
succeed, the node score gr_node_fragility is stored at the node's slot,
and the running sum and fragile count are updated accordingly. -/
theorem gr_sweep_step_spec (sp : GrStateSpace) (cfg : GrFragilityConfig)
    (bump : ℝ) (hv : sp.prices_valid = true) (s : GrSweepState) (flat : ℕ)
    (hj : s.jac.num_dims = sp.dims.length) (hh : s.hess.num_dims = sp.dims.length) :
    (gr_sweep_step sp cfg bump s flat).jac.num_dims = sp.dims.length ∧
    (gr_sweep_step sp cfg bump s flat).hess.num_dims = sp.dims.length ∧
    (gr_sweep_step sp cfg bump s flat).grid_scores =
      s.grid_scores.set flat (gr_node_fragility sp cfg bump flat) ∧
    (gr_sweep_step sp cfg bump s flat).sum_fragility =
      s.sum_fragility + gr_node_fragility sp cfg bump flat ∧
    (gr_sweep_step sp cfg bump s flat).num_fragile =
      s.num_fragile +
        (if cfg.fragility_threshold ≤ gr_node_fragility sp cfg bump flat then 1
          else 0) := by
  have hr1 := gr_jacobian_compute_success s.jac sp (gr_get_coordinates sp.dims flat)
    bump hj hv
  have hr2 := gr_hessian_compute_v1_success s.hess sp (gr_get_coordinates sp.dims flat)
    bump hh
  have hfrag := gr_sweep_fragility_eq sp cfg bump flat s.hess.eigenvalues hv
  simp only [gr_sweep_step, hr1, hr2, ne_eq, not_true_eq_false, if_false, hfrag]
  refine ⟨by trivial, by trivial, by trivial, by trivial, ?_⟩
  by_cases hc : cfg.fragility_threshold ≤ gr_node_fragility sp cfg bump flat
  · simp [hc]
  · simp [hc]

/-- The full sweep over the first k flat indices: every visited node's
slot holds its gr_node_fragility score, the score buffer keeps its
length, and the running sum and fragile count accumulate node by node —
no iteration aborts the fold. -/
theorem gr_sweep_fold_spec (sp : GrStateSpace) (cfg : GrFragilityConfig)
    (bump : ℝ) (hv : sp.prices_valid = true) :
    ∀ (k : ℕ) (s0 : GrSweepState), s0.jac.num_dims = sp.dims.length →
      s0.hess.num_dims = sp.dims.length →
      ((List.range k).foldl (gr_sweep_step sp cfg bump) s0).jac.num_dims =
          sp.dims.length ∧
      ((List.range k).foldl (gr_sweep_step sp cfg bump) s0).hess.num_dims =
          sp.dims.length ∧
      ((List.range k).foldl (gr_sweep_step sp cfg bump) s0).grid_scores.length =
          s0.grid_scores.length ∧
      (∀ f, f < k → f < s0.grid_scores.length →
        ((List.range k).foldl (gr_sweep_step sp cfg bump) s0).grid_scores.getD f 0 =
          gr_node_fragility sp cfg bump f) ∧
      ((List.range k).foldl (gr_sweep_step sp cfg bump) s0).sum_fragility =
        s0.sum_fragility + ∑ f ∈ Finset.range k, gr_node_fragility sp cfg bump f ∧
      ((List.range k).foldl (gr_sweep_step sp cfg bump) s0).num_fragile =
        s0.num_fragile +
          ((Finset.range k).filter
            (fun f => cfg.fragility_threshold ≤ gr_node_fragility sp cfg bump f)).card := by
  intro k
  induction k with
  | zero =>
    intro s0 hj hh
    simp [hj, hh]
  | succ k ih =>
    intro s0 hj hh
    obtain ⟨ihj, ihh, ihlen, ihsc, ihsum, ihcnt⟩ := ih s0 hj hh
    have hstep := gr_sweep_step_spec sp cfg bump hv
      ((List.range k).foldl (gr_sweep_step sp cfg bump) s0) k ihj ihh
    rw [List.range_succ, List.foldl_append, List.foldl_cons, List.foldl_nil]
    obtain ⟨sj, sh, ssc, ssum, scnt⟩ := hstep
    refine ⟨sj, sh, ?_, ?_, ?_, ?_⟩
    · rw [ssc, List.length_set, ihlen]
    · intro f hf hflen
      rw [ssc]
      by_cases hfk : f = k
      · subst hfk
        have hklen : f < ((List.range f).foldl
            (gr_sweep_step sp cfg bump) s0).grid_scores.length := by
          rw [ihlen]; exact hflen
        rw [List.getD_eq_getElem?_getD, List.getElem?_set_self hklen]
        rfl
      · rw [List.getD_eq_getElem?_getD, List.getElem?_set_ne (fun h => hfk h.symm),
          ← List.getD_eq_getElem?_getD]
        exact ihsc f (by omega) hflen
    · rw [ssum, ihsum, Finset.sum_range_succ]
      ring
    · rw [scnt, ihcnt, Finset.range_succ, Finset.filter_insert]
      by_cases hc : cfg.fragility_threshold ≤ gr_node_fragility sp cfg bump k
      · rw [if_pos hc, if_pos hc,
          Finset.card_insert_of_not_mem (by simp)]
        omega
      · rw [if_neg hc, if_neg hc]
        omega

/-- Full characterisation of gr_fragility_map_compute on a fresh map and a
valid-price state space: success, the computed flag, the score grid and
the published statistics. -/
theorem gr_fragility_map_compute_spec (m : GrFragilityMap) (sp : GrStateSpace)
    (bump : ℝ) (hv : sp.prices_valid = true) (hg : m.grid_scores = []) :
    (gr_fragility_map_compute m sp bump).1 = .success ∧
    (gr_fragility_map_compute m sp bump).2.grid_computed = true ∧
    (gr_fragility_map_compute m sp bump).2.grid_scores.length =
      gr_total_points sp.dims ∧
    (∀ f, f < gr_total_points sp.dims →
      (gr_fragility_map_compute m sp bump).2.grid_scores.getD f 0 =
        gr_node_fragility sp m.config bump f) ∧
    (gr_fragility_map_compute m sp bump).2.mean_fragility =
      (if 0 < gr_total_points sp.dims then
        (∑ f ∈ Finset.range (gr_total_points sp.dims),
          gr_node_fragility sp m.config bump f) / (gr_total_points sp.dims : ℝ)
      else 0) ∧
    (gr_fragility_map_compute m sp bump).2.fragile_fraction =
      (if 0 < gr_total_points sp.dims then
        (((Finset.range (gr_total_points sp.dims)).filter
          (fun f => m.config.fragility_threshold ≤
            gr_node_fragility sp m.config bump f)).card : ℝ) /
          (gr_total_points sp.dims : ℝ)
      else 0) := by
  have hfold := gr_sweep_fold_spec sp m.config bump hv (gr_total_points sp.dims)
    ⟨gr_jacobian_new sp.dims.length, gr_hessian_new sp.dims.length,
      if m.grid_scores.length = 0 then List.replicate (gr_total_points sp.dims) 0
      else m.grid_scores, 0, 0, 0, []⟩ rfl rfl
  obtain ⟨_, _, hlen, hsc, hsum, hcnt⟩ := hfold
  have hginit : (if m.grid_scores.length = 0 then
      List.replicate (gr_total_points sp.dims) (0 : ℝ) else m.grid_scores) =
      List.replicate (gr_total_points sp.dims) (0 : ℝ) := by
    rw [if_pos (by rw [hg]; rfl)]
  rw [hginit] at hlen hsc
  simp only [List.length_replicate] at hlen hsc
  rw [gr_fragility_map_compute, if_neg (by simp [hv])]
  simp only [hginit] at hsum hcnt ⊢
  refine ⟨by trivial, by trivial, ?_, ?_, ?_, ?_⟩
  · exact hlen
  · intro f hf
    exact hsc f hf hf
  · rw [hsum]
    norm_num
  · rw [hcnt]
    norm_num

/-- C4: on a state space with valid prices the fragility sweep never
aborts: every one of the total_points nodes is visited and scored (no
per-node Jacobian/Hessian failure occurs, and a hypothetical one would
only skip the node via the continue branches of the loop), the call
returns Success, and on completion it publishes
mean = (sum of scores)/total_points,
fragile_fraction = (number of nodes with score ≥ fragility_threshold)/total_points,
and marks the map computed. -/
theorem fragility_map_compute_sweeps_all (m : GrFragilityMap) (sp : GrStateSpace)
    (bump : ℝ) (hv : sp.prices_valid = true) (hg : m.grid_scores = [])
    (ht : 0 < gr_total_points sp.dims) :
    (gr_fragility_map_compute m sp bump).1 = .success ∧
    (gr_fragility_map_compute m sp bump).2.grid_computed = true ∧
    (gr_fragility_map_compute m sp bump).2.grid_scores.length =
      gr_total_points sp.dims ∧
    (∀ f, f < gr_total_points sp.dims →
      (gr_fragility_map_compute m sp bump).2.grid_scores.getD f 0 =
        gr_node_fragility sp m.config bump f) ∧
    (gr_fragility_map_compute m sp bump).2.mean_fragility =
      (∑ f ∈ Finset.range (gr_total_points sp.dims),
        gr_node_fragility sp m.config bump f) / (gr_total_points sp.dims : ℝ) ∧
    (gr_fragility_map_compute m sp bump).2.fragile_fraction =
      (((Finset.range (gr_total_points sp.dims)).filter
        (fun f => m.config.fragility_threshold ≤
          gr_node_fragility sp m.config bump f)).card : ℝ) /
        (gr_total_points sp.dims : ℝ) := by
  obtain ⟨h1, h2, h3, h4, h5, h6⟩ := gr_fragility_map_compute_spec m sp bump hv hg
  refine ⟨h1, h2, h3, h4, ?_, ?_⟩
  · rw [h5, if_pos ht]
  · rw [h6, if_pos ht]

/-- Witness for C4: the default fragility map over the concrete 1-D
valid-price space with two nodes. -/
theorem fragility_map_compute_sweeps_all_witness :
    (gr_fragility_map_compute mapDefault spaceFlat 1e-4).1 = .success ∧
    (gr_fragility_map_compute mapDefault spaceFlat 1e-4).2.grid_computed = true ∧
    (gr_fragility_map_compute mapDefault spaceFlat 1e-4).2.grid_scores.getD 0 0 =
      gr_node_fragility spaceFlat mapDefault.config 1e-4 0 ∧
    (gr_fragility_map_compute mapDefault spaceFlat 1e-4).2.mean_fragility =
      (∑ f ∈ Finset.range (gr_total_points spaceFlat.dims),
        gr_node_fragility spaceFlat mapDefault.config 1e-4 f) /
        (gr_total_points spaceFlat.dims : ℝ) := by
  have ht : 0 < gr_total_points spaceFlat.dims := by
    norm_num [gr_total_points, spaceFlat]
  have h := fragility_map_compute_sweeps_all mapDefault spaceFlat 1e-4 rfl rfl ht
  exact ⟨h.1, h.2.1, h.2.2.2.1 0 ht, h.2.2.2.2.1⟩

/-- Interpolation on the concrete space (prices 0 and 100 on [0, 10])
recovers the linear function 10·v strictly inside the cell. -/
theorem spaceC3_interp_mid (v : ℝ) (h0 : 0 < v) (h10 : v < 10) :
    gr_state_space_interpolate_price spaceC3 [v] = 10 * v := by
  have hg0 : gr_dimension_grid ⟨0, 10, 2⟩ 0 = 0 := by
    norm_num [gr_dimension_grid, gr_dimension_step]
  have hg1 : gr_dimension_grid ⟨0, 10, 2⟩ 1 = 10 := by
    norm_num [gr_dimension_grid]
  have hb : gr_bracket (spaceC3.dims.getD 0 default) (([v] : List ℝ).getD 0 0) =
      (0, 1, v / 10) := by
    show gr_bracket ⟨0, 10, 2⟩ v = (0, 1, v / 10)
    rw [gr_bracket]
    rw [if_neg (not_le.mpr h0), if_neg (not_le.mpr h10)]
    show gr_search_bracket ⟨0, 10, 2⟩ v 0 (0 + 1) = (0, 1, v / 10)
    rw [gr_search_bracket, if_pos (by rw [hg0, hg1]; exact ⟨le_of_lt h0, le_of_lt h10⟩)]
    rw [hg0, hg1]
    norm_num
  rw [gr_state_space_interpolate_price, if_pos ⟨rfl, by simp [spaceC3]⟩]
  simp only [show spaceC3.dims.length = 1 from rfl, pow_one, gr_interp_weight,
    gr_interp_index]
  rw [Finset.sum_range_succ, Finset.sum_range_one]
  simp only [Finset.prod_range_one, Finset.sum_range_one, hb]
  norm_num [Nat.testBit, gr_stride, gr_total_points, spaceC3]
  ring

/-- Interpolation on the concrete space clamps to the left boundary value
0 for any coordinate at or below the minimum. -/
theorem spaceC3_interp_left (v : ℝ) (h0 : v ≤ 0) :
    gr_state_space_interpolate_price spaceC3 [v] = 0 := by
  have hb : gr_bracket (spaceC3.dims.getD 0 default) (([v] : List ℝ).getD 0 0) =
      (0, 0, 0) := by
    show gr_bracket ⟨0, 10, 2⟩ v = (0, 0, 0)
    rw [gr_bracket, if_pos h0]
  rw [gr_state_space_interpolate_price, if_pos ⟨rfl, by simp [spaceC3]⟩]
  simp only [show spaceC3.dims.length = 1 from rfl, pow_one, gr_interp_weight,
    gr_interp_index]
  rw [Finset.sum_range_succ, Finset.sum_range_one]
  simp only [Finset.prod_range_one, Finset.sum_range_one, hb]
  norm_num [Nat.testBit, gr_stride, gr_total_points, spaceC3]

/-- C3 counterexample: with the non-negative weights (3, 0, 0, 0) — the
API validates weights only for non-negativity — the score the sweep
stores at node 0 of the concrete space exceeds 1: gr_fragility_combine
applies no clamp, so the stored fragility is 3·(2/(1+e^(−5))−1) > 1.
The claim's guarantee that every stored score lies in [0, 1] is false. -/
theorem fragility_score_exceeds_one :
    (0 ≤ cfgC3.weight_gradient ∧ 0 ≤ cfgC3.weight_curvature ∧
      0 ≤ cfgC3.weight_conditioning ∧ 0 ≤ cfgC3.weight_constraint) ∧
    (gr_fragility_map_compute mapC3 spaceC3 1e-4).1 = .success ∧
    1 < (gr_fragility_map_compute mapC3 spaceC3 1e-4).2.grid_scores.getD 0 0 := by
  have hcoords : gr_get_coordinates spaceC3.dims 0 = [0] := by
    show gr_get_coordinates [⟨0, 10, 2⟩] 0 = [0]
    rw [gr_get_coordinates]
    norm_num [gr_multi_index, gr_total_points, gr_dimension_grid, gr_dimension_step]
  have hpart : gr_jacobian_partial_at spaceC3 1e-4 [0] 1 0 = 5 := by
    show (gr_state_space_interpolate_price spaceC3 [(0:ℝ) + 1e-4 * (10 - 0)] -
        gr_state_space_interpolate_price spaceC3 [(0:ℝ) - 1e-4 * (10 - 0)]) /
        (2 * (1e-4 * (10 - 0))) = 5
    rw [spaceC3_interp_mid ((0:ℝ) + 1e-4 * (10 - 0)) (by norm_num) (by norm_num),
      spaceC3_interp_left ((0:ℝ) - 1e-4 * (10 - 0)) (by norm_num)]
    norm_num
  have hnorm : gr_jacobian_norm (some (gr_jacobian_result spaceC3 1e-4 [0])) = 5 := by
    have hvalid : (gr_jacobian_result spaceC3 1e-4 [0]).valid = true := rfl
    simp only [gr_jacobian_norm]
    rw [if_neg (by simp [hvalid])]
    rw [gr_jacobian_compute_norm]
    have hnd : (gr_jacobian_result spaceC3 1e-4 [0]).num_dims = 1 := rfl
    rw [hnd, show List.range 1 = [0] from rfl]
    simp only [List.map_cons, List.map_nil, List.sum_cons, List.sum_nil]
    have hp : (gr_jacobian_result spaceC3 1e-4 [0]).partials.getD 0 0 = 5 := hpart
    rw [hp]
    rw [show (5:ℝ) * 5 + 0 = 25 from by norm_num]
    rw [show (25:ℝ) = 5 ^ 2 from by norm_num, Real.sqrt_sq (by norm_num : (0:ℝ) ≤ 5)]
  have ht : 0 < gr_total_points spaceC3.dims := by
    norm_num [gr_total_points, spaceC3]
  have hspec := gr_fragility_map_compute_spec mapC3 spaceC3 1e-4 rfl rfl
  refine ⟨⟨by norm_num [cfgC3], by norm_num [cfgC3], by norm_num [cfgC3],
    by norm_num [cfgC3]⟩, hspec.1, ?_⟩
  rw [hspec.2.2.2.1 0 ht]
  show 1 < gr_node_fragility spaceC3 cfgC3 1e-4 0
  rw [← gr_sweep_fragility_eq spaceC3 cfgC3 1e-4 0 [0] rfl]
  rw [hcoords, gr_fragility_combine]
  rw [show cfgC3.weight_gradient = 3 from rfl, show cfgC3.weight_curvature = 0 from rfl,
    show cfgC3.weight_conditioning = 0 from rfl, show cfgC3.weight_constraint = 0 from rfl]
  rw [zero_mul, zero_mul, zero_mul, add_zero, add_zero, add_zero]
  have hgs : cfgC3.gradient_scale = 1 := by norm_num [cfgC3]
  rw [hnorm, hgs]
  rw [gr_fragility_from_gradient, if_neg (by norm_num)]
  rw [show (5:ℝ) / 1 = 5 from by norm_num]
  have h6 : (6:ℝ) ≤ Real.exp 5 := by have := Real.add_one_le_exp (5:ℝ); linarith
  have hepos : (0:ℝ) < Real.exp (-(5:ℝ)) := Real.exp_pos _
  have hmul : Real.exp (-(5:ℝ)) * Real.exp 5 = 1 := by
    rw [← Real.exp_add]
    norm_num
  have hesmall : Real.exp (-(5:ℝ)) ≤ 1 / 6 := by nlinarith
  have h1e : (0:ℝ) < 1 + Real.exp (-(5:ℝ)) := by linarith
  have hdiv : (4:ℝ) / 3 < 2 / (1 + Real.exp (-(5:ℝ))) := by
    rw [div_lt_div_iff₀ (by norm_num) h1e]
    nlinarith
  linarith

/-- The exponential-sigmoid gradient component always lies in [0, 1] for
a non-negative norm. -/
theorem gr_fragility_from_gradient_mem (x s : ℝ) (hx : 0 ≤ x) :
    0 ≤ gr_fragility_from_gradient x s ∧ gr_fragility_from_gradient x s ≤ 1 := by
  rw [gr_fragility_from_gradient]
  by_cases hs : s ≤ 0
  · rw [if_pos hs]
    norm_num
  · rw [if_neg hs]
    push_neg at hs
    have hts : (0:ℝ) ≤ x / s := div_nonneg hx (le_of_lt hs)
    have he1 : Real.exp (-(x / s)) ≤ 1 := by
      calc Real.exp (-(x / s)) ≤ Real.exp 0 :=
            Real.exp_le_exp.mpr (neg_nonpos_of_nonneg hts)
        _ = 1 := Real.exp_zero
    have hepos : (0:ℝ) < Real.exp (-(x / s)) := Real.exp_pos _
    have h1e : (0:ℝ) < 1 + Real.exp (-(x / s)) := by linarith
    constructor
    · rw [sub_nonneg, le_div_iff₀ h1e]
      linarith
    · rw [sub_le_iff_le_add, div_le_iff₀ h1e]
      nlinarith

/-- The curvature component is the same sigmoid, so it shares the bound. -/
theorem gr_fragility_from_curvature_mem (x s : ℝ) (hx : 0 ≤ x) :
    0 ≤ gr_fragility_from_curvature x s ∧ gr_fragility_from_curvature x s ≤ 1 := by
  have h : gr_fragility_from_curvature x s = gr_fragility_from_gradient x s := rfl
  rw [h]
  exact gr_fragility_from_gradient_mem x s hx

/-- The conditioning component is clamped into [0, 1] by construction. -/
theorem gr_fragility_from_conditioning_mem (x t : ℝ) :
    0 ≤ gr_fragility_from_conditioning x t ∧ gr_fragility_from_conditioning x t ≤ 1 := by
  rw [gr_fragility_from_conditioning]
  split_ifs with h1 h2 h3 h4
  · norm_num
  · norm_num
  · norm_num
  · norm_num
  · push_neg at h3 h4
    have hd : (0:ℝ) < 2 * Real.logb 10 t := lt_trans h3 h4
    constructor
    · exact div_nonneg (le_of_lt h3) (le_of_lt hd)
    · rw [div_le_one hd]
      exact le_of_lt h4

/-- The public Jacobian norm accessor never returns a negative value. -/
theorem gr_jacobian_norm_nonneg (j : Option GrJacobian) : 0 ≤ gr_jacobian_norm j := by
  match j with
  | none => exact le_refl 0
  | some jj =>
      show (0:ℝ) ≤ if jj.valid = false then 0 else gr_jacobian_compute_norm jj
      by_cases hv : jj.valid = false
      · rw [if_pos hv]
      · rw [if_neg hv]
        exact Real.sqrt_nonneg _

/-- The public Frobenius norm accessor never returns a negative value. -/
theorem gr_hessian_frobenius_norm_nonneg (h : Option GrHessian) :
    0 ≤ gr_hessian_frobenius_norm h := by
  match h with
  | none => exact le_refl 0
  | some hh =>
      show (0:ℝ) ≤ if hh.valid = false then 0 else gr_hessian_frobenius_sum hh
      by_cases hv : hh.valid = false
      · rw [if_pos hv]
      · rw [if_neg hv]
        exact Real.sqrt_nonneg _

/-- With non-negative weights of total at most 1, the linear combination
of components in [0, 1] stays in [0, 1]. -/
theorem gr_fragility_combine_mem (g c k b : ℝ) (cfg : GrFragilityConfig)
    (hg : 0 ≤ g ∧ g ≤ 1) (hc : 0 ≤ c ∧ c ≤ 1) (hk : 0 ≤ k ∧ k ≤ 1)
    (hb : 0 ≤ b ∧ b ≤ 1)
    (hw0 : 0 ≤ cfg.weight_gradient) (hw1 : 0 ≤ cfg.weight_curvature)
    (hw2 : 0 ≤ cfg.weight_conditioning) (hw3 : 0 ≤ cfg.weight_constraint)
    (hsum : cfg.weight_gradient + cfg.weight_curvature +
      cfg.weight_conditioning + cfg.weight_constraint ≤ 1) :
    0 ≤ gr_fragility_combine g c k b cfg ∧ gr_fragility_combine g c k b cfg ≤ 1 := by
  rw [gr_fragility_combine]
  constructor
  · have t0 := mul_nonneg hw0 hg.1
    have t1 := mul_nonneg hw1 hc.1
    have t2 := mul_nonneg hw2 hk.1
    have t3 := mul_nonneg hw3 hb.1
    linarith
  · have t0 := mul_le_of_le_one_right hw0 hg.2
    have t1 := mul_le_of_le_one_right hw1 hc.2
    have t2 := mul_le_of_le_one_right hw2 hk.2
    have t3 := mul_le_of_le_one_right hw3 hb.2
    linarith

/-- The score the sweep computes at any node lies in [0, 1] whenever the
configured weights are non-negative and sum to at most 1. -/
theorem gr_node_fragility_mem (sp : GrStateSpace) (cfg : GrFragilityConfig)
    (bump : ℝ) (flat : ℕ)
    (hw0 : 0 ≤ cfg.weight_gradient) (hw1 : 0 ≤ cfg.weight_curvature)
    (hw2 : 0 ≤ cfg.weight_conditioning) (hw3 : 0 ≤ cfg.weight_constraint)
    (hsum : cfg.weight_gradient + cfg.weight_curvature +
      cfg.weight_conditioning + cfg.weight_constraint ≤ 1) :
    0 ≤ gr_node_fragility sp cfg bump flat ∧ gr_node_fragility sp cfg bump flat ≤ 1 := by
  rw [gr_node_fragility]
  exact gr_fragility_combine_mem _ _ _ _ cfg
    (gr_fragility_from_gradient_mem _ _ (gr_jacobian_norm_nonneg _))
    (gr_fragility_from_curvature_mem _ _ (gr_hessian_frobenius_norm_nonneg _))
    (gr_fragility_from_conditioning_mem _ _)
    (by norm_num)
    hw0 hw1 hw2 hw3 hsum

/-- C3 (amended): on a valid state space, every score the full sweep
stores in the fragility grid lies in [0, 1] provided the configured
component weights are non-negative and sum to at most 1 (as the default
weights 0.25 + 0.30 + 0.25 + 0.20 = 1 do); the combination step itself
applies no clamp, so the bound comes entirely from this weight budget. -/
theorem fragility_scores_bounded (m : GrFragilityMap) (sp : GrStateSpace)
    (bump : ℝ) (hv : sp.prices_valid = true) (hg : m.grid_scores = [])
    (hw0 : 0 ≤ m.config.weight_gradient) (hw1 : 0 ≤ m.config.weight_curvature)
    (hw2 : 0 ≤ m.config.weight_conditioning) (hw3 : 0 ≤ m.config.weight_constraint)
    (hsum : m.config.weight_gradient + m.config.weight_curvature +
      m.config.weight_conditioning + m.config.weight_constraint ≤ 1)
    (f : ℕ) (hf : f < gr_total_points sp.dims) :
    0 ≤ (gr_fragility_map_compute m sp bump).2.grid_scores.getD f 0 ∧
    (gr_fragility_map_compute m sp bump).2.grid_scores.getD f 0 ≤ 1 := by
  have hspec := gr_fragility_map_compute_spec m sp bump hv hg
  rw [hspec.2.2.2.1 f hf]
  exact gr_node_fragility_mem sp m.config bump f hw0 hw1 hw2 hw3 hsum

/-- The bound instantiated at the default configuration on a concrete
valid 1-D space: the stored node-0 score lies in [0, 1]. -/
theorem fragility_scores_bounded_witness :
    0 ≤ (gr_fragility_map_compute mapDefault spaceFlat 1e-4).2.grid_scores.getD 0 0 ∧
    (gr_fragility_map_compute mapDefault spaceFlat 1e-4).2.grid_scores.getD 0 0 ≤ 1 :=
  fragility_scores_bounded mapDefault spaceFlat 1e-4 rfl rfl
    (by norm_num [mapDefault, gr_fragility_config_default])
    (by norm_num [mapDefault, gr_fragility_config_default])
    (by norm_num [mapDefault, gr_fragility_config_default])
    (by norm_num [mapDefault, gr_fragility_config_default])
    (by norm_num [mapDefault, gr_fragility_config_default])
    0 (by norm_num [gr_total_points, spaceFlat])
